import Mathlib

/-!
# Verification of the taser-bot smart runtime against its specification

This file gives a shallow embedding, over exact rational arithmetic, of the
risk-management kernel of the trading runtime: the stop-loss guards
(`app/components/guards.py`, `app/surveillance.py`), the milestone SL logic of
the TrendScalp runner (`app/runners/trendscalp_runner.py`), the take-profit
ladder calculators (`app/taser_rules.py`, `app/tp_calc.py`), the re-entry gate
and startup recovery (`app/scheduler.py`), the regime classifier
(`app/regime.py`) and position sizing (`app/money.py`).

Python floats are modelled as exact rationals (`ℚ`); Python's `round(x, 4)`
is modelled as exact decimal round-half-to-even at 4 decimal places.
Configuration values (read by the code via `getattr(C, ...)` / environment
variables) are gathered in an explicit `Config` record and quantified over.
-/

namespace TaserBot

/-! ## Python `round` on rationals -/

/-- Round-half-to-even of a rational to an integer (the tie rule of Python's
builtin `round`). -/
def rhe (q : ℚ) : ℤ :=
  if q - ⌊q⌋ < 1/2 then ⌊q⌋
  else if (1:ℚ)/2 < q - ⌊q⌋ then ⌊q⌋ + 1
  else if 2 ∣ ⌊q⌋ then ⌊q⌋ else ⌊q⌋ + 1

/-- Python `round(x, 4)` modelled exactly on rationals. -/
def round4 (q : ℚ) : ℚ := (rhe (q * 10000) : ℚ) / 10000

theorem rhe_le (q : ℚ) : (rhe q : ℚ) ≤ q + 1/2 := by
  unfold rhe
  have h0 := Int.sub_one_lt_floor q
  have h1 := Int.floor_le q
  split
  · linarith
  · split
    · push_cast; linarith
    · split
      · linarith
      · push_cast
        rename_i h2 h3 _
        push_neg at h2 h3
        linarith

theorem le_rhe (q : ℚ) : q - 1/2 ≤ (rhe q : ℚ) := by
  unfold rhe
  have h1 := Int.floor_le q
  have h2 := Int.lt_floor_add_one q
  split
  · rename_i h; linarith
  · split
    · push_cast; linarith
    · split
      · rename_i h _ _
        push_neg at h
        linarith
      · push_cast; linarith

theorem rhe_intCast (n : ℤ) : rhe (n : ℚ) = n := by
  unfold rhe
  rw [Int.floor_intCast]
  simp

theorem rhe_cases (q : ℚ) : rhe q = ⌊q⌋ ∨ rhe q = ⌊q⌋ + 1 := by
  unfold rhe
  split
  · exact Or.inl rfl
  · split
    · exact Or.inr rfl
    · split
      · exact Or.inl rfl
      · exact Or.inr rfl

theorem rhe_of_lt_half {q : ℚ} (h : q - ⌊q⌋ < 1/2) : rhe q = ⌊q⌋ := by
  unfold rhe
  rw [if_pos h]

theorem rhe_of_gt_half {q : ℚ} (h : (1:ℚ)/2 < q - ⌊q⌋) : rhe q = ⌊q⌋ + 1 := by
  unfold rhe
  rw [if_neg (by linarith), if_pos h]

theorem rhe_mono {q r : ℚ} (h : q ≤ r) : rhe q ≤ rhe r := by
  rcases lt_or_le (⌊q⌋ : ℤ) ⌊r⌋ with hf | hf
  · have hq : rhe q ≤ ⌊q⌋ + 1 := by
      rcases rhe_cases q with h1 | h1 <;> omega
    have hr : (⌊r⌋ : ℤ) ≤ rhe r := by
      rcases rhe_cases r with h1 | h1 <;> omega
    omega
  · have hf2 : ⌊q⌋ = ⌊r⌋ := le_antisymm (Int.floor_le_floor h) hf
    by_cases hq1 : q - ⌊q⌋ < 1/2
    · rw [rhe_of_lt_half hq1]
      have hr : (⌊r⌋ : ℤ) ≤ rhe r := by
        rcases rhe_cases r with h1 | h1 <;> omega
      omega
    · push_neg at hq1
      have hfr : q - ⌊q⌋ ≤ r - ⌊r⌋ := by
        have hc : ((⌊q⌋ : ℚ)) = ((⌊r⌋ : ℚ)) := by rw [hf2]
        linarith
      by_cases hr1 : (1:ℚ)/2 < r - ⌊r⌋
      · rw [rhe_of_gt_half hr1]
        rcases rhe_cases q with h1 | h1 <;> omega
      · push_neg at hr1
        have hq2 : q - ⌊q⌋ = 1/2 := le_antisymm (by linarith) hq1
        have hr2 : r - ⌊r⌋ = 1/2 := le_antisymm hr1 (by linarith)
        have : q = r := by
          have hc : ((⌊q⌋ : ℚ)) = ((⌊r⌋ : ℚ)) := by rw [hf2]
          linarith
        rw [this]

theorem round4_le (q : ℚ) : round4 q ≤ q + 1/20000 := by
  unfold round4
  have h := rhe_le (q * 10000)
  have : (rhe (q * 10000) : ℚ) ≤ q * 10000 + 1/2 := h
  linarith

theorem le_round4 (q : ℚ) : q - 1/20000 ≤ round4 q := by
  unfold round4
  have h := le_rhe (q * 10000)
  linarith

theorem round4_mono {q r : ℚ} (h : q ≤ r) : round4 q ≤ round4 r := by
  unfold round4
  have := rhe_mono (q := q * 10000) (r := r * 10000) (by nlinarith)
  have h2 : ((rhe (q * 10000) : ℚ)) ≤ ((rhe (r * 10000) : ℚ)) := by exact_mod_cast this
  linarith

/-- `round4` lands on exact 4-decimal grid points. -/
theorem round4_grid (q : ℚ) : round4 q * 10000 = (rhe (q * 10000) : ℚ) := by
  unfold round4; field_simp

theorem round4_idem (q : ℚ) : round4 (round4 q) = round4 q := by
  unfold round4
  have : ((rhe (q * 10000) : ℚ) / 10000) * 10000 = (rhe (q * 10000) : ℚ) := by
    field_simp
  rw [this, rhe_intCast]

/-- If `base` is on the 4dp grid and the increment exceeds half a grid step,
rounding moves strictly up by at least one grid step. -/
theorem round4_step_up {base step : ℚ} (m : ℤ) (hb : base = (m : ℚ) / 10000)
    (hs : 1/20000 < step) : base + 1/10000 ≤ round4 (base + step) := by
  have hbm : base * 10000 = (m : ℚ) := by rw [hb]; field_simp
  have hq : (base + step) * 10000 = (m : ℚ) + step * 10000 := by
    have h1 : (base + step) * 10000 = base * 10000 + step * 10000 := by ring
    rw [h1, hbm]
  have hlow : (base + step) * 10000 - 1/2 ≤ (rhe ((base + step) * 10000) : ℚ) :=
    le_rhe _
  have hgt : (m : ℚ) < (rhe ((base + step) * 10000) : ℚ) := by
    linarith
  have hint : (m + 1 : ℤ) ≤ rhe ((base + step) * 10000) := by
    exact_mod_cast hgt
  have hc : ((m : ℚ) + 1) ≤ (rhe ((base + step) * 10000) : ℚ) := by exact_mod_cast hint
  unfold round4
  linarith

/-- If `base` is on the 4dp grid and the decrement exceeds half a grid step,
rounding moves strictly down by at least one grid step. -/
theorem round4_step_down {base step : ℚ} (m : ℤ) (hb : base = (m : ℚ) / 10000)
    (hs : 1/20000 < step) : round4 (base - step) ≤ base - 1/10000 := by
  have hbm : base * 10000 = (m : ℚ) := by rw [hb]; field_simp
  have hq : (base - step) * 10000 = (m : ℚ) - step * 10000 := by
    have h1 : (base - step) * 10000 = base * 10000 - step * 10000 := by ring
    rw [h1, hbm]
  have hhigh : (rhe ((base - step) * 10000) : ℚ) ≤ (base - step) * 10000 + 1/2 :=
    rhe_le _
  have hlt : (rhe ((base - step) * 10000) : ℚ) < (m : ℚ) := by
    linarith
  have hint : rhe ((base - step) * 10000) ≤ m - 1 := by
    have : rhe ((base - step) * 10000) < m := by exact_mod_cast hlt
    omega
  have hc : (rhe ((base - step) * 10000) : ℚ) ≤ (m : ℚ) - 1 := by exact_mod_cast hint
  unfold round4
  linarith

/-! ## Configuration

All configuration values the embedded functions read (via `app/config.py`,
`getattr(C, key, default)` or module-level environment parsing) are collected
here.  String-valued mode switches are kept as `String`; parsed numeric lists
(e.g. `TS_TP_R`, parsed by `_floats_csv`) are carried as already-parsed
rational lists. -/

structure Config where
  FEES_PCT_PAD : ℚ := 0.0010
  SL_MIN_GAP_ATR_MULT : ℚ := 0.35
  SL_MIN_GAP_PCT : ℚ := 0.0012
  TS_SL_MIN_BUFFER_ATR : ℚ := 0.45
  GLOBAL_NO_TRAIL_BEFORE_TP1 : Bool := false
  TRENDSCALP_PAUSE_ABS_LOCKS : Bool := true
  LOCK_NEVER_WORSE_THAN_BE : Bool := true
  MIN_R_MULT : ℚ := 1.4
  TP1_ABS : ℚ := 0.50
  TP_MODE : String := "r"
  TS_TP_R : List ℚ := [0.8, 1.4, 2.2]
  MODE_ADAPT_ENABLED : Bool := false
  MODE_CHOP_ATR_PCT_MAX : ℚ := 0.0025
  MODE_CHOP_ADX_MAX : ℚ := 25
  MODE_CHOP_TP_ATR_MULTS : List ℚ := [0.60, 1.00, 1.50]
  MODE_RALLY_TP_ATR_MULTS : List ℚ := [0.90, 1.60, 2.60]
  TP1_ATR_MULT : ℚ := 0.60
  TP2_ATR_MULT : ℚ := 1.10
  TP3_ATR_MULT : ℚ := 1.80
  TS_MILESTONE_MODE : Bool := true
  SCALP_ABS_LOCK_USD : ℚ := 0.50
  TS_MS_STEP_R : ℚ := 0.5
  TS_MS_LOCK_DELTA_R : ℚ := 0.25
  TS_TP2_LOCK_FRACR : ℚ := 0.70
  TS_POST_TP2_ATR_MULT : ℚ := 0.50
  SL_TIGHTEN_COOLDOWN_SEC : ℤ := 55
  REQUIRE_NEW_BAR : Bool := true
  MIN_REENTRY_SECONDS : ℤ := 90
  BLOCK_REENTRY_PCT : ℚ := 0.004
  SIZING_MODE : String := "capital_frac"
  CAPITAL_FRACTION : ℚ := 0.5
  MAX_LEVERAGE : ℚ := 2
  RISK_PCT : ℚ := 1
  DRY_RUN : Bool := true
  PAPER_USE_START_BALANCE : Bool := true
  PAPER_START_BALANCE : ℚ := 1000
  FEE_RATE_PER_SIDE : ℚ := 0.0005
  MAX_QTY_CAP : ℚ := 1500
  MIN_SL_PCT_MONEY : ℚ := 0.05
  MIN_SL_ABS : ℚ := 0
  MIN_QTY : ℚ := 1
  NOTIONAL_MIN : ℚ := 0
  MIN_SL_FRAC : Option ℚ := none

/-- The configuration with every field at its source-code default. -/
def defaultCfg : Config := {}

/-- Python truthiness chaining for numbers: `a or b` yields `a` unless `a == 0`. -/
def pyOr (a b : ℚ) : ℚ := if a = 0 then b else a

theorem pyOr_pos {a b : ℚ} (ha : 0 < a) : pyOr a b = a := by
  unfold pyOr
  rw [if_neg (ne_of_gt ha)]

/-! ## `app/components/guards.py` -/

/-- `be_floor(sl_new, is_long, entry)`: floor (cap for SHORT) the stop at the
break-even-plus-fees price. -/
def be_floor (cfg : Config) (sl_new : ℚ) (is_long : Bool) (entry : ℚ) : ℚ :=
  let fees := cfg.FEES_PCT_PAD
  let be := if is_long then entry * (1 + fees) else entry * (1 - fees)
  if is_long then max sl_new be else min sl_new be

/-- `_min_gap_px(price, entry, atr)`: minimal stop distance from price
(max of ATR gap, TrendScalp ATR buffer, percent gap, and 1e-6). -/
def _min_gap_px (cfg : Config) (price entry atr : ℚ) : ℚ :=
  let g_atr := cfg.SL_MIN_GAP_ATR_MULT * atr
  let g_buf := cfg.TS_SL_MIN_BUFFER_ATR * atr
  let g_pct := cfg.SL_MIN_GAP_PCT * pyOr price (pyOr entry 1)
  max (1/1000000) (max g_pct (max g_atr g_buf))

/-- `guard_sl(...)`: the unified TrendScalp stop-loss guard — pre-TP1 freeze,
optional BE floor, polarity clamp at min-gap from price, tighten-only. -/
def guard_sl (cfg : Config) (sl_candidate sl_current : ℚ) (is_long : Bool)
    (price entry atr : ℚ) (hit_tp1 allow_be : Bool) : ℚ :=
  let freeze_all := cfg.GLOBAL_NO_TRAIL_BEFORE_TP1 || cfg.TRENDSCALP_PAUSE_ABS_LOCKS
  if (!hit_tp1) && freeze_all && (!allow_be) then sl_current
  else
    let mg := _min_gap_px cfg price entry atr
    let sl_target := if allow_be then be_floor cfg sl_candidate is_long entry
                     else sl_candidate
    if is_long then
      max sl_current (min sl_target (price - mg))
    else
      min sl_current (max sl_target (price + mg))

/-! ## `app/surveillance.py` SL guard -/

/-- `_min_sl_gap(px, entry, atr)` from `surveillance.py` (no TrendScalp
buffer term here). -/
def _min_sl_gap (cfg : Config) (px entry atr : ℚ) : ℚ :=
  let g_atr := cfg.SL_MIN_GAP_ATR_MULT * atr
  let g_pct := cfg.SL_MIN_GAP_PCT * pyOr px (pyOr entry 1)
  max (1/1000000) (max g_atr g_pct)

/-- `_apply_be_floor(sl_new, is_long, entry, hit_tp1)` from `surveillance.py`. -/
def _apply_be_floor (cfg : Config) (sl_new : ℚ) (is_long : Bool) (entry : ℚ)
    (hit_tp1 : Bool) : ℚ :=
  if !hit_tp1 then sl_new
  else if !cfg.LOCK_NEVER_WORSE_THAN_BE then sl_new
  else
    let be := if is_long then entry * (1 + cfg.FEES_PCT_PAD)
              else entry * (1 - cfg.FEES_PCT_PAD)
    if is_long then max sl_new be else min sl_new be

/-- `_guard_sl(sl_target, is_long, px, entry, atr, hit_tp1)` from
`surveillance.py`: BE floor, then clamp at min-gap from price, then round to
4 decimal places. -/
def _guard_sl (cfg : Config) (sl_target : ℚ) (is_long : Bool)
    (px entry atr : ℚ) (hit_tp1 : Bool) : ℚ :=
  let guarded := _apply_be_floor cfg sl_target is_long entry hit_tp1
  let gap := _min_sl_gap cfg px entry atr
  let guarded := if is_long then min guarded (px - gap) else max guarded (px + gap)
  round4 guarded

/-! ### Tighten-only lemmas for `guard_sl` -/

theorem guard_sl_tighten_long (cfg : Config) (sl_candidate sl_current : ℚ)
    (price entry atr : ℚ) (hit_tp1 allow_be : Bool) :
    sl_current ≤ guard_sl cfg sl_candidate sl_current true price entry atr hit_tp1 allow_be := by
  unfold guard_sl
  dsimp only
  split
  · exact le_refl _
  · exact le_max_left _ _

theorem guard_sl_tighten_short (cfg : Config) (sl_candidate sl_current : ℚ)
    (price entry atr : ℚ) (hit_tp1 allow_be : Bool) :
    guard_sl cfg sl_candidate sl_current false price entry atr hit_tp1 allow_be ≤ sl_current := by
  unfold guard_sl
  dsimp only
  split
  · exact le_refl _
  · exact min_le_left _ _

/-! ## `app/runners/trendscalp_runner.py`: milestone SL block and SL apply

The milestone block (lines 843–915) computes a stop-loss candidate from the
current trade state; the guard/apply block (lines 921–944) passes it through
`guard_sl` and applies it only when it tightens the stop and the cooldown has
elapsed.  `last_ms_k` is the per-trade high-water mark of milestones already
locked. -/

/-- `int(prog // step_px) if prog > 0 else 0`: the number of whole milestone
steps of progress beyond TP1. -/
def milestone_ticks (step_px prog : ℚ) : ℤ :=
  if 0 < prog then ⌊prog / step_px⌋ else 0

/-- The stop-loss candidate produced by the milestone block.
`R_init = |entry − initial_sl|` (0 when degenerate); `last_ms_k` is the
per-trade high-water mark of milestones already locked. -/
def milestone_sl (cfg : Config) (is_long : Bool) (entry sl_cur px : ℚ)
    (tp1 tp2 : Option ℚ) (hit_tp1 hit_tp2 : Bool) (R_init : ℚ) (last_ms_k : ℤ)
    (mfe_abs atr5 : ℚ) : ℚ :=
  let be_price := if is_long then entry * (1 + cfg.FEES_PCT_PAD)
                  else entry * (1 - cfg.FEES_PCT_PAD)
  match hit_tp1, hit_tp2 with
  | false, _ =>
    -- Pre-TP1: only optional BE insurance once MFE passes SCALP_ABS_LOCK_USD
    if 0 < cfg.SCALP_ABS_LOCK_USD ∧ cfg.SCALP_ABS_LOCK_USD ≤ mfe_abs then
      (if is_long then max sl_cur be_price else min sl_cur be_price)
    else sl_cur
  | true, false =>
    -- After TP1: BE floor, then milestone ratchets every MS_STEP_R beyond TP1
    let c1 := if is_long then max sl_cur be_price else min sl_cur be_price
    if 0 < R_init ∧ 0 < cfg.TS_MS_STEP_R then
      let step_px := cfg.TS_MS_STEP_R * R_init
      let tp1_val := tp1.getD entry
      let prog := if is_long then px - tp1_val else tp1_val - px
      let k : ℤ := milestone_ticks step_px prog
      if last_ms_k < k then
        let delta_px := (k : ℚ) * cfg.TS_MS_LOCK_DELTA_R * R_init
        if is_long then max c1 (entry + delta_px) else min c1 (entry - delta_px)
      else c1
    else c1
  | true, true =>
    -- After TP2: lock a fraction of entry→TP2, then trail by ATR
    let c1 := match tp2 with
      | some t2 =>
        if 0 < R_init then
          let base := if is_long then entry + cfg.TS_TP2_LOCK_FRACR * (t2 - entry)
                      else entry - cfg.TS_TP2_LOCK_FRACR * (entry - t2)
          if is_long then max sl_cur base else min sl_cur base
        else sl_cur
      | none => sl_cur
    if 0 < atr5 then
      let trail := if is_long then px - cfg.TS_POST_TP2_ATR_MULT * atr5
                   else px + cfg.TS_POST_TP2_ATR_MULT * atr5
      if is_long then max c1 trail else min c1 trail
    else c1

/-- The updated `last_ms_k` after the milestone block (changed only when a new
milestone is locked in the post-TP1 pre-TP2 branch). -/
def milestone_k (cfg : Config) (is_long : Bool) (entry px : ℚ) (tp1 : Option ℚ)
    (hit_tp1 hit_tp2 : Bool) (R_init : ℚ) (last_ms_k : ℤ) : ℤ :=
  match hit_tp1, hit_tp2 with
  | true, false =>
    if 0 < R_init ∧ 0 < cfg.TS_MS_STEP_R then
      let step_px := cfg.TS_MS_STEP_R * R_init
      let tp1_val := tp1.getD entry
      let prog := if is_long then px - tp1_val else tp1_val - px
      let k : ℤ := milestone_ticks step_px prog
      if last_ms_k < k then k else last_ms_k
    else last_ms_k
  | _, _ => last_ms_k

/-- The milestone block: SL candidate together with the updated `last_ms_k`. -/
def milestone_candidate (cfg : Config) (is_long : Bool) (entry sl_cur px : ℚ)
    (tp1 tp2 : Option ℚ) (hit_tp1 hit_tp2 : Bool) (R_init : ℚ) (last_ms_k : ℤ)
    (mfe_abs atr5 : ℚ) : ℚ × ℤ :=
  (milestone_sl cfg is_long entry sl_cur px tp1 tp2 hit_tp1 hit_tp2 R_init last_ms_k mfe_abs atr5,
   milestone_k cfg is_long entry px tp1 hit_tp1 hit_tp2 R_init last_ms_k)

/-- Per-tick market inputs consumed by the manager SL logic. -/
structure Tick where
  px : ℚ
  atr5 : ℚ
  tp1 : Option ℚ
  tp2 : Option ℚ
  hit_tp1 : Bool
  hit_tp2 : Bool
  mfe_abs : ℚ
  prop_sl : Option ℚ
  now : ℚ

/-- Mutable per-trade manager state touched by the SL apply block. -/
structure MgrState where
  sl_cur : ℚ
  last_ms_k : ℤ
  last_sl_move_ts : ℚ

/-- `improved = (is_long and sl_final > sl_cur) or ((not is_long) and sl_final < sl_cur)`. -/
def improved_sl (is_long : Bool) (old_sl new_sl : ℚ) : Bool :=
  if is_long then decide (old_sl < new_sl) else decide (new_sl < old_sl)

/-- The guard-and-apply part of the SL block: pass the candidate through
`guard_sl`, then move the stop only if it strictly tightens and the SL
cooldown has elapsed. -/
def apply_sl_block (cfg : Config) (is_long : Bool) (entry : ℚ) (st : MgrState)
    (t : Tick) (c : ℚ) (k2 : ℤ) : MgrState :=
  let sl_final := guard_sl cfg c st.sl_cur is_long t.px entry t.atr5 t.hit_tp1 false
  if sl_final = st.sl_cur then { st with last_ms_k := k2 }
  else if improved_sl is_long st.sl_cur sl_final
          ∧ (cfg.SL_TIGHTEN_COOLDOWN_SEC : ℚ) ≤ t.now - st.last_sl_move_ts then
    { sl_cur := sl_final, last_ms_k := k2, last_sl_move_ts := t.now }
  else { st with last_ms_k := k2 }

/-- One pass of the SL section of the manager loop: milestone candidate (or
FSM proposal when milestone mode is off), `guard_sl`, and tighten-only apply
under the SL cooldown. -/
def manager_sl_step (cfg : Config) (is_long : Bool) (entry R_init : ℚ)
    (st : MgrState) (t : Tick) : MgrState :=
  let cand : Option ℚ × ℤ :=
    if cfg.TS_MILESTONE_MODE then
      let ck := milestone_candidate cfg is_long entry st.sl_cur t.px t.tp1 t.tp2
        t.hit_tp1 t.hit_tp2 R_init st.last_ms_k t.mfe_abs t.atr5
      (some ck.1, ck.2)
    else (t.prop_sl, st.last_ms_k)
  match cand.1 with
  | none => st
  | some c => apply_sl_block cfg is_long entry st t c cand.2

/-- The sequence of SL values held after each manager tick. -/
def sl_trace (cfg : Config) (is_long : Bool) (entry R_init : ℚ)
    (st : MgrState) : List Tick → List ℚ
  | [] => []
  | t :: ts =>
    let st2 := manager_sl_step cfg is_long entry R_init st t
    st2.sl_cur :: sl_trace cfg is_long entry R_init st2 ts

theorem apply_sl_block_mono_long (cfg : Config) (entry : ℚ) (st : MgrState)
    (t : Tick) (c : ℚ) (k2 : ℤ) :
    st.sl_cur ≤ (apply_sl_block cfg true entry st t c k2).sl_cur := by
  unfold apply_sl_block
  dsimp only
  split
  · exact le_refl _
  · split
    · rename_i h
      have h1 := h.1
      simp only [improved_sl, if_pos, decide_eq_true_eq] at h1
      exact le_of_lt h1
    · exact le_refl _

theorem apply_sl_block_mono_short (cfg : Config) (entry : ℚ) (st : MgrState)
    (t : Tick) (c : ℚ) (k2 : ℤ) :
    (apply_sl_block cfg false entry st t c k2).sl_cur ≤ st.sl_cur := by
  unfold apply_sl_block
  dsimp only
  split
  · exact le_refl _
  · split
    · rename_i h
      have h1 := h.1
      simp only [improved_sl, Bool.false_eq_true, if_false, decide_eq_true_eq] at h1
      exact le_of_lt h1
    · exact le_refl _

theorem manager_sl_step_mono_long (cfg : Config) (entry R_init : ℚ)
    (st : MgrState) (t : Tick) :
    st.sl_cur ≤ (manager_sl_step cfg true entry R_init st t).sl_cur := by
  unfold manager_sl_step
  dsimp only
  split
  · exact le_refl _
  · exact apply_sl_block_mono_long ..

theorem manager_sl_step_mono_short (cfg : Config) (entry R_init : ℚ)
    (st : MgrState) (t : Tick) :
    (manager_sl_step cfg false entry R_init st t).sl_cur ≤ st.sl_cur := by
  unfold manager_sl_step
  dsimp only
  split
  · exact le_refl _
  · exact apply_sl_block_mono_short ..

theorem sl_trace_chain_long (cfg : Config) (entry R_init : ℚ)
    (st : MgrState) (ticks : List Tick) :
    List.Chain (· ≤ ·) st.sl_cur (sl_trace cfg true entry R_init st ticks) := by
  induction ticks generalizing st with
  | nil => exact List.Chain.nil
  | cons t ts ih =>
    exact List.Chain.cons (manager_sl_step_mono_long cfg entry R_init st t) (ih _)

theorem sl_trace_chain_short (cfg : Config) (entry R_init : ℚ)
    (st : MgrState) (ticks : List Tick) :
    List.Chain (fun a b => b ≤ a) st.sl_cur (sl_trace cfg false entry R_init st ticks) := by
  induction ticks generalizing st with
  | nil => exact List.Chain.nil
  | cons t ts ih =>
    exact List.Chain.cons (manager_sl_step_mono_short cfg entry R_init st t) (ih _)

/-! ### Floor and ratchet lemmas for the milestone candidate -/

theorem ms_be_long (cfg : Config) (entry sl_cur px : ℚ) (tp1 tp2 : Option ℚ)
    (R_init : ℚ) (last_k : ℤ) (mfe atr5 : ℚ) :
    entry * (1 + cfg.FEES_PCT_PAD) ≤
      milestone_sl cfg true entry sl_cur px tp1 tp2 true false R_init last_k mfe atr5 := by
  unfold milestone_sl
  simp only [eq_self_iff_true, if_true, Bool.false_eq_true, if_false]
  by_cases h1 : 0 < R_init ∧ 0 < cfg.TS_MS_STEP_R
  · rw [if_pos h1]
    by_cases h2 : last_k < milestone_ticks (cfg.TS_MS_STEP_R * R_init)
        (px - tp1.getD entry)
    · rw [if_pos h2]
      exact le_max_of_le_left (le_max_right _ _)
    · rw [if_neg h2]
      exact le_max_right _ _
  · rw [if_neg h1]
    exact le_max_right _ _

theorem ms_be_short (cfg : Config) (entry sl_cur px : ℚ) (tp1 tp2 : Option ℚ)
    (R_init : ℚ) (last_k : ℤ) (mfe atr5 : ℚ) :
    milestone_sl cfg false entry sl_cur px tp1 tp2 true false R_init last_k mfe atr5 ≤
      entry * (1 - cfg.FEES_PCT_PAD) := by
  unfold milestone_sl
  simp only [eq_self_iff_true, if_true, Bool.false_eq_true, if_false]
  by_cases h1 : 0 < R_init ∧ 0 < cfg.TS_MS_STEP_R
  · rw [if_pos h1]
    by_cases h2 : last_k < milestone_ticks (cfg.TS_MS_STEP_R * R_init)
        (tp1.getD entry - px)
    · rw [if_pos h2]
      exact min_le_of_left_le (min_le_right _ _)
    · rw [if_neg h2]
      exact min_le_right _ _
  · rw [if_neg h1]
    exact min_le_right _ _

theorem ms_ratchet_long (cfg : Config) (entry sl_cur px tp1v : ℚ) (tp2 : Option ℚ)
    (R_init : ℚ) (last_k : ℤ) (mfe atr5 : ℚ) (k : ℤ)
    (hR : 0 < R_init) (hstep : 0 < cfg.TS_MS_STEP_R)
    (hd : 0 ≤ cfg.TS_MS_LOCK_DELTA_R) (hk : 0 < k)
    (hprog : (k : ℚ) * (cfg.TS_MS_STEP_R * R_init) ≤ px - tp1v)
    (hlast : last_k < ⌊(px - tp1v) / (cfg.TS_MS_STEP_R * R_init)⌋) :
    entry + (k : ℚ) * cfg.TS_MS_LOCK_DELTA_R * R_init ≤
      milestone_sl cfg true entry sl_cur px (some tp1v) tp2 true false
        R_init last_k mfe atr5 := by
  have hsp : 0 < cfg.TS_MS_STEP_R * R_init := mul_pos hstep hR
  have hk1 : (1 : ℚ) ≤ (k : ℚ) := by exact_mod_cast hk
  have hpos : 0 < px - tp1v := lt_of_lt_of_le (by nlinarith) hprog
  have hkfl : k ≤ ⌊(px - tp1v) / (cfg.TS_MS_STEP_R * R_init)⌋ := by
    apply Int.le_floor.2
    rw [le_div_iff₀ hsp]
    linarith
  have hticks : milestone_ticks (cfg.TS_MS_STEP_R * R_init) (px - tp1v) =
      ⌊(px - tp1v) / (cfg.TS_MS_STEP_R * R_init)⌋ := by
    unfold milestone_ticks
    rw [if_pos hpos]
  unfold milestone_sl
  simp only [Option.getD_some, eq_self_iff_true, if_true, Bool.false_eq_true, if_false]
  rw [hticks, if_pos (And.intro hR hstep), if_pos hlast]
  refine le_trans ?_ (le_max_right _ _)
  have hkq : (k : ℚ) ≤ ((⌊(px - tp1v) / (cfg.TS_MS_STEP_R * R_init)⌋ : ℤ) : ℚ) := by
    exact_mod_cast hkfl
  have key : 0 ≤ (((⌊(px - tp1v) / (cfg.TS_MS_STEP_R * R_init)⌋ : ℤ) : ℚ) - (k : ℚ)) *
      cfg.TS_MS_LOCK_DELTA_R * R_init :=
    mul_nonneg (mul_nonneg (sub_nonneg.2 hkq) hd) hR.le
  linarith [key]

theorem ms_ratchet_short (cfg : Config) (entry sl_cur px tp1v : ℚ) (tp2 : Option ℚ)
    (R_init : ℚ) (last_k : ℤ) (mfe atr5 : ℚ) (k : ℤ)
    (hR : 0 < R_init) (hstep : 0 < cfg.TS_MS_STEP_R)
    (hd : 0 ≤ cfg.TS_MS_LOCK_DELTA_R) (hk : 0 < k)
    (hprog : (k : ℚ) * (cfg.TS_MS_STEP_R * R_init) ≤ tp1v - px)
    (hlast : last_k < ⌊(tp1v - px) / (cfg.TS_MS_STEP_R * R_init)⌋) :
    milestone_sl cfg false entry sl_cur px (some tp1v) tp2 true false
        R_init last_k mfe atr5 ≤
      entry - (k : ℚ) * cfg.TS_MS_LOCK_DELTA_R * R_init := by
  have hsp : 0 < cfg.TS_MS_STEP_R * R_init := mul_pos hstep hR
  have hk1 : (1 : ℚ) ≤ (k : ℚ) := by exact_mod_cast hk
  have hpos : 0 < tp1v - px := lt_of_lt_of_le (by nlinarith) hprog
  have hkfl : k ≤ ⌊(tp1v - px) / (cfg.TS_MS_STEP_R * R_init)⌋ := by
    apply Int.le_floor.2
    rw [le_div_iff₀ hsp]
    linarith
  have hticks : milestone_ticks (cfg.TS_MS_STEP_R * R_init) (tp1v - px) =
      ⌊(tp1v - px) / (cfg.TS_MS_STEP_R * R_init)⌋ := by
    unfold milestone_ticks
    rw [if_pos hpos]
  unfold milestone_sl
  simp only [Option.getD_some, eq_self_iff_true, if_true, Bool.false_eq_true, if_false]
  rw [hticks, if_pos (And.intro hR hstep), if_pos hlast]
  refine le_trans (min_le_right _ _) ?_
  have hkq : (k : ℚ) ≤ ((⌊(tp1v - px) / (cfg.TS_MS_STEP_R * R_init)⌋ : ℤ) : ℚ) := by
    exact_mod_cast hkfl
  have key : 0 ≤ (((⌊(tp1v - px) / (cfg.TS_MS_STEP_R * R_init)⌋ : ℤ) : ℚ) - (k : ℚ)) *
      cfg.TS_MS_LOCK_DELTA_R * R_init :=
    mul_nonneg (mul_nonneg (sub_nonneg.2 hkq) hd) hR.le
  linarith [key]

theorem ms_post_tp2_lock_long (cfg : Config) (entry sl_cur px : ℚ) (tp1 : Option ℚ)
    (t2 R_init : ℚ) (last_k : ℤ) (mfe atr5 : ℚ) (hR : 0 < R_init) :
    entry + cfg.TS_TP2_LOCK_FRACR * (t2 - entry) ≤
      milestone_sl cfg true entry sl_cur px tp1 (some t2) true true
        R_init last_k mfe atr5 := by
  unfold milestone_sl
  simp only [eq_self_iff_true, if_true, Bool.false_eq_true, if_false]
  rw [if_pos hR]
  by_cases h2 : 0 < atr5
  · rw [if_pos h2]
    exact le_max_of_le_left (le_max_right _ _)
  · rw [if_neg h2]
    exact le_max_right _ _

theorem ms_post_tp2_lock_short (cfg : Config) (entry sl_cur px : ℚ) (tp1 : Option ℚ)
    (t2 R_init : ℚ) (last_k : ℤ) (mfe atr5 : ℚ) (hR : 0 < R_init) :
    milestone_sl cfg false entry sl_cur px tp1 (some t2) true true
        R_init last_k mfe atr5 ≤ entry - cfg.TS_TP2_LOCK_FRACR * (entry - t2) := by
  unfold milestone_sl
  simp only [eq_self_iff_true, if_true, Bool.false_eq_true, if_false]
  rw [if_pos hR]
  by_cases h2 : 0 < atr5
  · rw [if_pos h2]
    exact min_le_of_left_le (min_le_right _ _)
  · rw [if_neg h2]
    exact min_le_right _ _

theorem ms_post_tp2_trail_long (cfg : Config) (entry sl_cur px : ℚ)
    (tp1 tp2 : Option ℚ) (R_init : ℚ) (last_k : ℤ) (mfe atr5 : ℚ) (ha : 0 < atr5) :
    px - cfg.TS_POST_TP2_ATR_MULT * atr5 ≤
      milestone_sl cfg true entry sl_cur px tp1 tp2 true true
        R_init last_k mfe atr5 := by
  unfold milestone_sl
  simp only [eq_self_iff_true, if_true, Bool.false_eq_true, if_false]
  rw [if_pos ha]
  exact le_max_right _ _

theorem ms_post_tp2_trail_short (cfg : Config) (entry sl_cur px : ℚ)
    (tp1 tp2 : Option ℚ) (R_init : ℚ) (last_k : ℤ) (mfe atr5 : ℚ) (ha : 0 < atr5) :
    milestone_sl cfg false entry sl_cur px tp1 tp2 true true
        R_init last_k mfe atr5 ≤ px + cfg.TS_POST_TP2_ATR_MULT * atr5 := by
  unfold milestone_sl
  simp only [eq_self_iff_true, if_true, Bool.false_eq_true, if_false]
  rw [if_pos ha]
  exact min_le_right _ _

/-! ### Lower/upper bounds delivered by `guard_sl` after TP1 -/

theorem guard_sl_long_ge_min (cfg : Config) (c s px e a : ℚ) :
    min c (px - _min_gap_px cfg px e a) ≤ guard_sl cfg c s true px e a true false := by
  unfold guard_sl
  simp only [Bool.not_true, Bool.false_and, Bool.false_eq_true, if_false,
    eq_self_iff_true, if_true]
  exact le_max_right _ _

theorem guard_sl_short_le_max (cfg : Config) (c s px e a : ℚ) :
    guard_sl cfg c s false px e a true false ≤ max c (px + _min_gap_px cfg px e a) := by
  unfold guard_sl
  simp only [Bool.not_true, Bool.false_and, Bool.false_eq_true, if_false,
    eq_self_iff_true, if_true]
  exact min_le_right _ _

/-- Either the apply block leaves the stop unchanged, or the new stop is
exactly the `guard_sl` output. -/
theorem apply_sl_block_sl_cases (cfg : Config) (is_long : Bool) (entry : ℚ)
    (st : MgrState) (t : Tick) (c : ℚ) (k2 : ℤ) :
    (apply_sl_block cfg is_long entry st t c k2).sl_cur = st.sl_cur ∨
    (apply_sl_block cfg is_long entry st t c k2).sl_cur =
      guard_sl cfg c st.sl_cur is_long t.px entry t.atr5 t.hit_tp1 false := by
  unfold apply_sl_block
  dsimp only
  split
  · exact Or.inl rfl
  · split
    · exact Or.inr rfl
    · exact Or.inl rfl

/-- With milestone mode on, one manager step is the apply block run on the
milestone candidate. -/
theorem manager_sl_step_ms (cfg : Config) (is_long : Bool) (entry R_init : ℚ)
    (st : MgrState) (t : Tick) (hms : cfg.TS_MILESTONE_MODE = true) :
    manager_sl_step cfg is_long entry R_init st t =
      apply_sl_block cfg is_long entry st t
        (milestone_sl cfg is_long entry st.sl_cur t.px t.tp1 t.tp2
          t.hit_tp1 t.hit_tp2 R_init st.last_ms_k t.mfe_abs t.atr5)
        (milestone_k cfg is_long entry t.px t.tp1 t.hit_tp1 t.hit_tp2
          R_init st.last_ms_k) := by
  unfold manager_sl_step
  simp only [milestone_candidate, hms, eq_self_iff_true, if_true]

/-! ## Claim theorems: C1, C2, C3 -/

/-- **C1** (confirmed).  Tighten-only stop-loss: every `guard_sl` invocation
returns a stop `≥ sl_current` for LONG and `≤ sl_current` for SHORT; and in
the TrendScalp manager loop, the sequence of held SL values over any run of
ticks is monotonically non-decreasing for LONG and non-increasing for SHORT. -/
theorem C1_tighten_only_sl :
    (∀ (cfg : Config) (c s px e a : ℚ) (h1 ab : Bool),
        s ≤ guard_sl cfg c s true px e a h1 ab) ∧
    (∀ (cfg : Config) (c s px e a : ℚ) (h1 ab : Bool),
        guard_sl cfg c s false px e a h1 ab ≤ s) ∧
    (∀ (cfg : Config) (e R : ℚ) (st : MgrState) (ticks : List Tick),
        List.Chain (· ≤ ·) st.sl_cur (sl_trace cfg true e R st ticks)) ∧
    (∀ (cfg : Config) (e R : ℚ) (st : MgrState) (ticks : List Tick),
        List.Chain (fun a b => b ≤ a) st.sl_cur (sl_trace cfg false e R st ticks)) :=
  ⟨fun cfg c s px e a h1 ab => guard_sl_tighten_long cfg c s px e a h1 ab,
   fun cfg c s px e a h1 ab => guard_sl_tighten_short cfg c s px e a h1 ab,
   fun cfg e R st ticks => sl_trace_chain_long cfg e R st ticks,
   fun cfg e R st ticks => sl_trace_chain_short cfg e R st ticks⟩

/-- **C2** (corrected).  Milestone SL bounds, as the code enforces them: after
TP1 and before TP2 the candidate is floored at BE±fees, and the `k`-milestone
ratchet floor `entry ± k·MS_LOCK_DELTA_R·R_init` applies on ticks where the
milestone count `⌊progress/(MS_STEP_R·R_init)⌋` *exceeds the per-trade
high-water mark `last_ms_k`* (not on every tick whose progress reaches
`k·MS_STEP_R·R_init`, contra the original claim); after TP2 the candidate is
bounded by `entry ± TS_TP2_LOCK_FRACR·(tp2−entry)` when `R_init > 0` and by
`price ∓ TS_POST_TP2_ATR_MULT·ATR` when `ATR > 0`. -/
theorem C2_milestone_sl_bounds :
    ∀ (cfg : Config) (entry sl_cur px tp1v t2 R_init : ℚ) (last_k : ℤ)
      (mfe atr5 : ℚ),
      (entry * (1 + cfg.FEES_PCT_PAD) ≤
        milestone_sl cfg true entry sl_cur px (some tp1v) (some t2) true false
          R_init last_k mfe atr5) ∧
      (milestone_sl cfg false entry sl_cur px (some tp1v) (some t2) true false
          R_init last_k mfe atr5 ≤ entry * (1 - cfg.FEES_PCT_PAD)) ∧
      (∀ k : ℤ, 0 < R_init → 0 < cfg.TS_MS_STEP_R → 0 ≤ cfg.TS_MS_LOCK_DELTA_R →
        0 < k → (k : ℚ) * (cfg.TS_MS_STEP_R * R_init) ≤ px - tp1v →
        last_k < ⌊(px - tp1v) / (cfg.TS_MS_STEP_R * R_init)⌋ →
        entry + (k : ℚ) * cfg.TS_MS_LOCK_DELTA_R * R_init ≤
          milestone_sl cfg true entry sl_cur px (some tp1v) (some t2) true false
            R_init last_k mfe atr5) ∧
      (∀ k : ℤ, 0 < R_init → 0 < cfg.TS_MS_STEP_R → 0 ≤ cfg.TS_MS_LOCK_DELTA_R →
        0 < k → (k : ℚ) * (cfg.TS_MS_STEP_R * R_init) ≤ tp1v - px →
        last_k < ⌊(tp1v - px) / (cfg.TS_MS_STEP_R * R_init)⌋ →
        milestone_sl cfg false entry sl_cur px (some tp1v) (some t2) true false
            R_init last_k mfe atr5 ≤
          entry - (k : ℚ) * cfg.TS_MS_LOCK_DELTA_R * R_init) ∧
      (0 < R_init → entry + cfg.TS_TP2_LOCK_FRACR * (t2 - entry) ≤
        milestone_sl cfg true entry sl_cur px (some tp1v) (some t2) true true
          R_init last_k mfe atr5) ∧
      (0 < R_init →
        milestone_sl cfg false entry sl_cur px (some tp1v) (some t2) true true
            R_init last_k mfe atr5 ≤
          entry - cfg.TS_TP2_LOCK_FRACR * (entry - t2)) ∧
      (0 < atr5 → px - cfg.TS_POST_TP2_ATR_MULT * atr5 ≤
        milestone_sl cfg true entry sl_cur px (some tp1v) (some t2) true true
          R_init last_k mfe atr5) ∧
      (0 < atr5 →
        milestone_sl cfg false entry sl_cur px (some tp1v) (some t2) true true
            R_init last_k mfe atr5 ≤ px + cfg.TS_POST_TP2_ATR_MULT * atr5) := by
  intro cfg entry sl_cur px tp1v t2 R_init last_k mfe atr5
  refine ⟨ms_be_long .., ms_be_short .., ?_, ?_, ?_, ?_, ?_, ?_⟩
  · intro k h1 h2 h3 h4 h5 h6
    exact ms_ratchet_long cfg entry sl_cur px tp1v (some t2) R_init last_k mfe atr5
      k h1 h2 h3 h4 h5 h6
  · intro k h1 h2 h3 h4 h5 h6
    exact ms_ratchet_short cfg entry sl_cur px tp1v (some t2) R_init last_k mfe atr5
      k h1 h2 h3 h4 h5 h6
  · intro h
    exact ms_post_tp2_lock_long cfg entry sl_cur px (some tp1v) t2 R_init last_k mfe atr5 h
  · intro h
    exact ms_post_tp2_lock_short cfg entry sl_cur px (some tp1v) t2 R_init last_k mfe atr5 h
  · intro h
    exact ms_post_tp2_trail_long cfg entry sl_cur px (some tp1v) (some t2) R_init last_k mfe atr5 h
  · intro h
    exact ms_post_tp2_trail_short cfg entry sl_cur px (some tp1v) (some t2) R_init last_k mfe atr5 h

/-- Witness for C2 at concrete inputs (default config, LONG entry 100,
initial SL 99, TP1 101, TP2 103, price 102.2: two milestones crossed). -/
theorem C2_milestone_sl_bounds_witness :
    ((100 : ℚ) * (1 + defaultCfg.FEES_PCT_PAD) ≤
      milestone_sl defaultCfg true 100 99 102.2 (some 101) (some 103) true false 1 0 0 1) ∧
    ((100 : ℚ) + ((2 : ℤ) : ℚ) * defaultCfg.TS_MS_LOCK_DELTA_R * 1 ≤
      milestone_sl defaultCfg true 100 99 102.2 (some 101) (some 103) true false 1 0 0 1) ∧
    ((100 : ℚ) + defaultCfg.TS_TP2_LOCK_FRACR * (103 - 100) ≤
      milestone_sl defaultCfg true 100 99 102.2 (some 101) (some 103) true true 1 0 0 1) ∧
    ((102.2 : ℚ) - defaultCfg.TS_POST_TP2_ATR_MULT * 1 ≤
      milestone_sl defaultCfg true 100 99 102.2 (some 101) (some 103) true true 1 0 0 1) := by
  have h := C2_milestone_sl_bounds defaultCfg 100 99 102.2 101 103 1 0 0 1
  refine ⟨h.1, ?_, ?_, ?_⟩
  · exact h.2.2.1 2 (by norm_num) (by norm_num [defaultCfg]) (by norm_num [defaultCfg])
      (by norm_num) (by norm_num [defaultCfg]) (by norm_num [defaultCfg])
  · exact h.2.2.2.2.1 (by norm_num)
  · exact h.2.2.2.2.2.2.1 (by norm_num)

/-- Counterexample to C2 as stated: with `last_ms_k = 1` already locked and
price back at exactly one milestone of progress beyond TP1, the candidate is
only the BE floor (100.1), below the claimed milestone floor
`entry + 1·MS_LOCK_DELTA_R·R_init = 100.25`. -/
theorem C2_counterexample :
    (1 : ℚ) * (defaultCfg.TS_MS_STEP_R * 1) ≤ (101.5 : ℚ) - 101 ∧
    milestone_sl defaultCfg true 100 99 101.5 (some 101) (some 103) true false 1 1 0 0 <
      100 + (1 : ℚ) * defaultCfg.TS_MS_LOCK_DELTA_R * 1 := by
  constructor
  · norm_num [defaultCfg]
  · norm_num [milestone_sl, milestone_ticks, defaultCfg]

/-- **C3** (corrected).  BE floor after TP1, as the code enforces it: in
milestone mode, on any tick after TP1 and before TP2, every SL value the
manager actually applies is at least `min(entry·(1+FEES_PCT_PAD), price −
min_gap)` for LONG (at most `max(entry·(1−FEES_PCT_PAD), price + min_gap)`
for SHORT): the BE floor holds except where the min-gap clamp around the
current price binds, contra the original claim's unconditional floor. -/
theorem C3_be_floor_post_tp1 :
    ∀ (cfg : Config) (entry R_init : ℚ) (st : MgrState) (t : Tick),
      cfg.TS_MILESTONE_MODE = true → t.hit_tp1 = true → t.hit_tp2 = false →
      ((manager_sl_step cfg true entry R_init st t).sl_cur ≠ st.sl_cur →
        min (entry * (1 + cfg.FEES_PCT_PAD))
            (t.px - _min_gap_px cfg t.px entry t.atr5) ≤
          (manager_sl_step cfg true entry R_init st t).sl_cur) ∧
      ((manager_sl_step cfg false entry R_init st t).sl_cur ≠ st.sl_cur →
        (manager_sl_step cfg false entry R_init st t).sl_cur ≤
          max (entry * (1 - cfg.FEES_PCT_PAD))
              (t.px + _min_gap_px cfg t.px entry t.atr5)) := by
  intro cfg entry R_init st t hms htp1 htp2
  constructor
  · intro hne
    rw [manager_sl_step_ms cfg true entry R_init st t hms] at hne ⊢
    rcases apply_sl_block_sl_cases cfg true entry st t
        (milestone_sl cfg true entry st.sl_cur t.px t.tp1 t.tp2
          t.hit_tp1 t.hit_tp2 R_init st.last_ms_k t.mfe_abs t.atr5)
        (milestone_k cfg true entry t.px t.tp1 t.hit_tp1 t.hit_tp2
          R_init st.last_ms_k) with h | h
    · exact absurd h hne
    · rw [h, htp1, htp2]
      refine le_trans (min_le_min (ms_be_long cfg entry st.sl_cur t.px t.tp1 t.tp2
        R_init st.last_ms_k t.mfe_abs t.atr5) le_rfl) ?_
      exact guard_sl_long_ge_min cfg _ st.sl_cur t.px entry t.atr5
  · intro hne
    rw [manager_sl_step_ms cfg false entry R_init st t hms] at hne ⊢
    rcases apply_sl_block_sl_cases cfg false entry st t
        (milestone_sl cfg false entry st.sl_cur t.px t.tp1 t.tp2
          t.hit_tp1 t.hit_tp2 R_init st.last_ms_k t.mfe_abs t.atr5)
        (milestone_k cfg false entry t.px t.tp1 t.hit_tp1 t.hit_tp2
          R_init st.last_ms_k) with h | h
    · exact absurd h hne
    · rw [h, htp1, htp2]
      refine le_trans (guard_sl_short_le_max cfg _ st.sl_cur t.px entry t.atr5) ?_
      exact max_le_max (ms_be_short cfg entry st.sl_cur t.px t.tp1 t.tp2
        R_init st.last_ms_k t.mfe_abs t.atr5) le_rfl

/-- Witness for C3: a LONG tick after TP1 where the manager moves the stop
to 100.5 and the bound `min(BE, price − gap) = 100.1` holds. -/
theorem C3_be_floor_post_tp1_witness :
    (manager_sl_step defaultCfg true 100 1 ⟨99, 0, 0⟩
        ⟨102, 1, some 101, some 103, true, false, 0, none, 1000⟩).sl_cur ≠
      (MgrState.mk 99 0 0).sl_cur ∧
    min ((100 : ℚ) * (1 + defaultCfg.FEES_PCT_PAD))
        ((102 : ℚ) - _min_gap_px defaultCfg 102 100 1) ≤
      (manager_sl_step defaultCfg true 100 1 ⟨99, 0, 0⟩
        ⟨102, 1, some 101, some 103, true, false, 0, none, 1000⟩).sl_cur := by
  have hne : (manager_sl_step defaultCfg true 100 1 ⟨99, 0, 0⟩
      ⟨102, 1, some 101, some 103, true, false, 0, none, 1000⟩).sl_cur ≠
      (MgrState.mk 99 0 0).sl_cur := by
    norm_num [manager_sl_step, apply_sl_block, milestone_candidate, milestone_sl,
      milestone_k, milestone_ticks, guard_sl, be_floor, _min_gap_px, pyOr,
      improved_sl, defaultCfg]
  exact ⟨hne, (C3_be_floor_post_tp1 defaultCfg 100 1 ⟨99, 0, 0⟩
    ⟨102, 1, some 101, some 103, true, false, 0, none, 1000⟩ rfl rfl rfl).1 hne⟩

/-- Counterexample to C3 as stated: after TP1, with price at 100.2 and the
min-gap clamp at 0.45 ATR, the manager applies SL 99.75, strictly below the
BE floor 100.1. -/
theorem C3_counterexample :
    (manager_sl_step defaultCfg true 100 1 ⟨99, 0, 0⟩
        ⟨100.2, 1, some 100.5, some 103, true, false, 0, none, 1000⟩).sl_cur ≠ (99 : ℚ) ∧
    (manager_sl_step defaultCfg true 100 1 ⟨99, 0, 0⟩
        ⟨100.2, 1, some 100.5, some 103, true, false, 0, none, 1000⟩).sl_cur <
      100 * (1 + defaultCfg.FEES_PCT_PAD) := by
  constructor
  · norm_num [manager_sl_step, apply_sl_block, milestone_candidate, milestone_sl,
      milestone_k, milestone_ticks, guard_sl, be_floor, _min_gap_px, pyOr,
      improved_sl, defaultCfg]
  · norm_num [manager_sl_step, apply_sl_block, milestone_candidate, milestone_sl,
      milestone_k, milestone_ticks, guard_sl, be_floor, _min_gap_px, pyOr,
      improved_sl, defaultCfg]

/-! ### C4: min-gap after a guard pass -/

theorem min_gap_px_ge (cfg : Config) (px e a : ℚ) (hpx : 0 < px) :
    max (cfg.SL_MIN_GAP_ATR_MULT * a) (cfg.SL_MIN_GAP_PCT * px) ≤
      _min_gap_px cfg px e a := by
  unfold _min_gap_px
  dsimp only
  rw [pyOr_pos hpx]
  apply max_le
  · exact le_max_of_le_right (le_max_of_le_right (le_max_left _ _))
  · exact le_max_of_le_right (le_max_left _ _)

theorem min_sl_gap_ge (cfg : Config) (px e a : ℚ) (hpx : 0 < px) :
    max (cfg.SL_MIN_GAP_ATR_MULT * a) (cfg.SL_MIN_GAP_PCT * px) ≤
      _min_sl_gap cfg px e a := by
  unfold _min_sl_gap
  dsimp only
  rw [pyOr_pos hpx]
  exact le_max_right _ _

/-- When `guard_sl` moves a LONG stop, the result is clamped below
`price − min_gap`. -/
theorem guard_sl_moved_long (cfg : Config) (c s px e a : ℚ) (h1 ab : Bool)
    (hne : guard_sl cfg c s true px e a h1 ab ≠ s) :
    guard_sl cfg c s true px e a h1 ab ≤ px - _min_gap_px cfg px e a := by
  unfold guard_sl at hne ⊢
  by_cases hf : ((!h1) && (cfg.GLOBAL_NO_TRAIL_BEFORE_TP1 ||
      cfg.TRENDSCALP_PAUSE_ABS_LOCKS) && (!ab)) = true
  · rw [if_pos hf] at hne
    exact absurd rfl hne
  · rw [if_neg hf] at hne ⊢
    simp only [eq_self_iff_true, if_true] at hne ⊢
    rcases max_choice s (min (if ab then be_floor cfg c true e else c)
        (px - _min_gap_px cfg px e a)) with h | h
    · exact absurd h hne
    · rw [h]
      exact min_le_right _ _

/-- When `guard_sl` moves a SHORT stop, the result is clamped above
`price + min_gap`. -/
theorem guard_sl_moved_short (cfg : Config) (c s px e a : ℚ) (h1 ab : Bool)
    (hne : guard_sl cfg c s false px e a h1 ab ≠ s) :
    px + _min_gap_px cfg px e a ≤ guard_sl cfg c s false px e a h1 ab := by
  unfold guard_sl at hne ⊢
  by_cases hf : ((!h1) && (cfg.GLOBAL_NO_TRAIL_BEFORE_TP1 ||
      cfg.TRENDSCALP_PAUSE_ABS_LOCKS) && (!ab)) = true
  · rw [if_pos hf] at hne
    exact absurd rfl hne
  · rw [if_neg hf] at hne ⊢
    simp only [Bool.false_eq_true, if_false] at hne ⊢
    rcases min_choice s (max (if ab then be_floor cfg c false e else c)
        (px + _min_gap_px cfg px e a)) with h | h
    · exact absurd h hne
    · rw [h]
      exact le_max_right _ _

/-- **C4** (corrected).  Min-gap after a guard pass: whenever `guard_sl`
actually moves the stop, `|price − sl| ≥ max(SL_MIN_GAP_ATR_MULT·ATR,
SL_MIN_GAP_PCT·price)`; when it merely returns the unchanged current stop
(pre-TP1 freeze, or tighten-only keeping the old stop) no gap is guaranteed,
contra the original claim.  The surveillance `_guard_sl` guarantees the gap
up to its final rounding to 4 decimal places (slack 1/20000). -/
theorem C4_min_gap_after_guard :
    (∀ (cfg : Config) (c s px e a : ℚ) (h1 ab : Bool), 0 < px →
      guard_sl cfg c s true px e a h1 ab ≠ s →
      max (cfg.SL_MIN_GAP_ATR_MULT * a) (cfg.SL_MIN_GAP_PCT * px) ≤
        |px - guard_sl cfg c s true px e a h1 ab|) ∧
    (∀ (cfg : Config) (c s px e a : ℚ) (h1 ab : Bool), 0 < px →
      guard_sl cfg c s false px e a h1 ab ≠ s →
      max (cfg.SL_MIN_GAP_ATR_MULT * a) (cfg.SL_MIN_GAP_PCT * px) ≤
        |px - guard_sl cfg c s false px e a h1 ab|) ∧
    (∀ (cfg : Config) (tgt px e a : ℚ) (h1 : Bool), 0 < px →
      max (cfg.SL_MIN_GAP_ATR_MULT * a) (cfg.SL_MIN_GAP_PCT * px) - 1/20000 ≤
        |px - _guard_sl cfg tgt true px e a h1|) ∧
    (∀ (cfg : Config) (tgt px e a : ℚ) (h1 : Bool), 0 < px →
      max (cfg.SL_MIN_GAP_ATR_MULT * a) (cfg.SL_MIN_GAP_PCT * px) - 1/20000 ≤
        |px - _guard_sl cfg tgt false px e a h1|) := by
  refine ⟨?_, ?_, ?_, ?_⟩
  · intro cfg c s px e a h1 ab hpx hne
    have h2 := guard_sl_moved_long cfg c s px e a h1 ab hne
    have h3 := min_gap_px_ge cfg px e a hpx
    exact le_trans (by linarith) (le_abs_self _)
  · intro cfg c s px e a h1 ab hpx hne
    have h2 := guard_sl_moved_short cfg c s px e a h1 ab hne
    have h3 := min_gap_px_ge cfg px e a hpx
    refine le_trans (by linarith) (neg_le_abs (px - guard_sl cfg c s false px e a h1 ab))
  · intro cfg tgt px e a h1 hpx
    have h3 := min_sl_gap_ge cfg px e a hpx
    have h4 : _guard_sl cfg tgt true px e a h1 ≤
        (px - _min_sl_gap cfg px e a) + 1/20000 := by
      unfold _guard_sl
      simp only [eq_self_iff_true, if_true]
      calc round4 (min (_apply_be_floor cfg tgt true e h1) (px - _min_sl_gap cfg px e a))
          ≤ round4 (px - _min_sl_gap cfg px e a) := round4_mono (min_le_right _ _)
        _ ≤ (px - _min_sl_gap cfg px e a) + 1/20000 := round4_le _
    exact le_trans (by linarith) (le_abs_self _)
  · intro cfg tgt px e a h1 hpx
    have h3 := min_sl_gap_ge cfg px e a hpx
    have h4 : (px + _min_sl_gap cfg px e a) - 1/20000 ≤
        _guard_sl cfg tgt false px e a h1 := by
      unfold _guard_sl
      simp only [Bool.false_eq_true, if_false]
      calc (px + _min_sl_gap cfg px e a) - 1/20000
          ≤ round4 (px + _min_sl_gap cfg px e a) := le_round4 _
        _ ≤ round4 (max (_apply_be_floor cfg tgt false e h1)
              (px + _min_sl_gap cfg px e a)) := round4_mono (le_max_right _ _)
    exact le_trans (by linarith) (neg_le_abs (px - _guard_sl cfg tgt false px e a h1))

/-- Witness for C4 at concrete inputs (default config, both guards). -/
theorem C4_min_gap_after_guard_witness :
    guard_sl defaultCfg 99 94 true 100 100 1 true false ≠ 94 ∧
    max (defaultCfg.SL_MIN_GAP_ATR_MULT * 1) (defaultCfg.SL_MIN_GAP_PCT * 100) ≤
      |(100 : ℚ) - guard_sl defaultCfg 99 94 true 100 100 1 true false| ∧
    max (defaultCfg.SL_MIN_GAP_ATR_MULT * 1) (defaultCfg.SL_MIN_GAP_PCT * 100) - 1/20000 ≤
      |(100 : ℚ) - _guard_sl defaultCfg 99 true 100 100 1 true| := by
  have hne : guard_sl defaultCfg 99 94 true 100 100 1 true false ≠ 94 := by
    norm_num [guard_sl, be_floor, _min_gap_px, pyOr, defaultCfg]
  exact ⟨hne,
    C4_min_gap_after_guard.1 defaultCfg 99 94 100 100 1 true false (by norm_num) hne,
    C4_min_gap_after_guard.2.2.1 defaultCfg 99 100 100 1 true (by norm_num)⟩

/-- Counterexample to C4 as stated: on the pre-TP1 freeze path (default
config has `TRENDSCALP_PAUSE_ABS_LOCKS = true`), `guard_sl` returns the
current stop unchanged — here equal to the price — so the min-gap is
violated. -/
theorem C4_counterexample :
    guard_sl defaultCfg 50 100 true 100 100 1 false false = 100 ∧
    |(100 : ℚ) - guard_sl defaultCfg 50 100 true 100 100 1 false false| <
      max (defaultCfg.SL_MIN_GAP_ATR_MULT * 1) (defaultCfg.SL_MIN_GAP_PCT * 100) := by
  constructor
  · norm_num [guard_sl, be_floor, _min_gap_px, pyOr, defaultCfg]
  · norm_num [guard_sl, be_floor, _min_gap_px, pyOr, defaultCfg]

/-! ## `app/regime.py`: regime classifier with hysteresis -/

/-- Python `xs[-1]` on a float list (callers guarantee non-emptiness; the
default 0 is never reached there). -/
def pyLast (xs : List ℚ) : ℚ := (xs.getLast?).getD 0

/-- Python `xs[-2]`. -/
def last2 (xs : List ℚ) : ℚ := (xs.reverse[1]?).getD 0

/-- `ema_side = 1.0 if price >= ema200_last else -1.0`. -/
def ema_side_of (price ema200_last : ℚ) : ℚ := if ema200_last ≤ price then 1 else -1

/-- `close_slope`: 0 with fewer than two closes, else ±1 by the last step. -/
def close_slope_of (closes : List ℚ) : ℚ :=
  if 2 ≤ closes.length then (if last2 closes < pyLast closes then 1 else -1) else 0

/-- `classify(...)` from `app/regime.py` (the returned regime string; the
diagnostics dict, which carries no control flow, is omitted). -/
def classify (adxs atrs closes : List ℚ) (ema200_last : ℚ) (prev : Option String)
    (adx_up adx_dn atr_up atr_dn : ℚ) : String :=
  if adxs = [] ∨ atrs = [] ∨ closes = [] then prev.getD "CHOP"
  else
    let adx := pyLast adxs
    let price := pyLast closes
    let atr_pct := pyLast atrs / max (1/1000000000) price
    let want_runner := adx_up ≤ adx ∧ atr_up ≤ atr_pct ∧
      0 ≤ ema_side_of price ema200_last * close_slope_of closes
    let want_chop := adx ≤ adx_dn ∨ atr_pct ≤ atr_dn
    if prev = some "RUNNER" then (if want_chop then "CHOP" else "RUNNER")
    else if prev = some "CHOP" then (if want_runner then "RUNNER" else "CHOP")
    else (if want_runner then "RUNNER" else if want_chop then "CHOP" else "CHOP")

/-- **C8** (confirmed).  Regime hysteresis: with non-empty series and a
positive last close (so that ATR% is `atr_last / close_last`), the classifier
downgrades RUNNER→CHOP iff `ADX ≤ adx_dn ∨ ATR% ≤ atr_dn`, upgrades
CHOP→RUNNER iff `ADX ≥ adx_up ∧ ATR% ≥ atr_up ∧ ema_side·close_slope ≥ 0`,
and with no previous regime returns RUNNER iff the upgrade conditions hold,
else CHOP. -/
theorem C8_regime_hysteresis :
    ∀ (adxs atrs closes : List ℚ) (ema200 adx_up adx_dn atr_up atr_dn : ℚ),
      adxs ≠ [] → atrs ≠ [] → closes ≠ [] →
      (1/1000000000 : ℚ) ≤ pyLast closes →
      ((classify adxs atrs closes ema200 (some "RUNNER") adx_up adx_dn atr_up atr_dn
          = "CHOP" ↔
        pyLast adxs ≤ adx_dn ∨ pyLast atrs / pyLast closes ≤ atr_dn) ∧
       (classify adxs atrs closes ema200 (some "RUNNER") adx_up adx_dn atr_up atr_dn
          = "RUNNER" ↔
        ¬(pyLast adxs ≤ adx_dn ∨ pyLast atrs / pyLast closes ≤ atr_dn)) ∧
       (classify adxs atrs closes ema200 (some "CHOP") adx_up adx_dn atr_up atr_dn
          = "RUNNER" ↔
        (adx_up ≤ pyLast adxs ∧ atr_up ≤ pyLast atrs / pyLast closes ∧
          0 ≤ ema_side_of (pyLast closes) ema200 * close_slope_of closes)) ∧
       (classify adxs atrs closes ema200 (some "CHOP") adx_up adx_dn atr_up atr_dn
          = "CHOP" ↔
        ¬(adx_up ≤ pyLast adxs ∧ atr_up ≤ pyLast atrs / pyLast closes ∧
          0 ≤ ema_side_of (pyLast closes) ema200 * close_slope_of closes)) ∧
       (classify adxs atrs closes ema200 none adx_up adx_dn atr_up atr_dn
          = "RUNNER" ↔
        (adx_up ≤ pyLast adxs ∧ atr_up ≤ pyLast atrs / pyLast closes ∧
          0 ≤ ema_side_of (pyLast closes) ema200 * close_slope_of closes)) ∧
       (classify adxs atrs closes ema200 none adx_up adx_dn atr_up atr_dn
          = "CHOP" ↔
        ¬(adx_up ≤ pyLast adxs ∧ atr_up ≤ pyLast atrs / pyLast closes ∧
          0 ≤ ema_side_of (pyLast closes) ema200 * close_slope_of closes))) := by
  intro adxs atrs closes ema200 adx_up adx_dn atr_up atr_dn h1 h2 h3 hp
  have hne : ¬(adxs = [] ∨ atrs = [] ∨ closes = []) := by
    simp [h1, h2, h3]
  have hmax : max ((1:ℚ)/1000000000) (pyLast closes) = pyLast closes :=
    max_eq_right hp
  unfold classify
  simp only [if_neg hne]
  rw [hmax]
  refine ⟨?_, ?_, ?_, ?_, ?_, ?_⟩
  · rw [if_pos trivial]
    by_cases hc : pyLast adxs ≤ adx_dn ∨ pyLast atrs / pyLast closes ≤ atr_dn
    · simp [hc]
    · simp [hc]
  · rw [if_pos trivial]
    by_cases hc : pyLast adxs ≤ adx_dn ∨ pyLast atrs / pyLast closes ≤ atr_dn
    · simp [hc]
    · simp [hc]
  · rw [if_neg (by simp), if_pos trivial]
    by_cases hr : adx_up ≤ pyLast adxs ∧ atr_up ≤ pyLast atrs / pyLast closes ∧
        0 ≤ ema_side_of (pyLast closes) ema200 * close_slope_of closes
    · simp [hr]
    · simp [hr]
  · rw [if_neg (by simp), if_pos trivial]
    by_cases hr : adx_up ≤ pyLast adxs ∧ atr_up ≤ pyLast atrs / pyLast closes ∧
        0 ≤ ema_side_of (pyLast closes) ema200 * close_slope_of closes
    · simp [hr]
    · simp [hr]
  · rw [if_neg (by simp), if_neg (by simp)]
    by_cases hr : adx_up ≤ pyLast adxs ∧ atr_up ≤ pyLast atrs / pyLast closes ∧
        0 ≤ ema_side_of (pyLast closes) ema200 * close_slope_of closes
    · simp [hr]
    · simp [hr]
  · rw [if_neg (by simp), if_neg (by simp)]
    by_cases hr : adx_up ≤ pyLast adxs ∧ atr_up ≤ pyLast atrs / pyLast closes ∧
        0 ≤ ema_side_of (pyLast closes) ema200 * close_slope_of closes
    · simp [hr]
    · simp [hr]

/-- Witness for C8: ADX 30, ATR 1, close 100 keeps a RUNNER regime (no
downgrade) and upgrades a CHOP regime. -/
theorem C8_regime_hysteresis_witness :
    classify [30] [1] [100] 50 (some "RUNNER") 26 23 0.004 0.0035 = "RUNNER" ∧
    classify [30] [1] [100] 50 (some "CHOP") 26 23 0.004 0.0035 = "RUNNER" := by
  have h := C8_regime_hysteresis [30] [1] [100] 50 26 23 0.004 0.0035
    (by simp) (by simp) (by simp) (by norm_num [pyLast])
  constructor
  · exact h.2.1.mpr (by norm_num [pyLast])
  · exact h.2.2.1.mpr
      (by norm_num [pyLast, ema_side_of, close_slope_of, last2])

/-! ## `app/scheduler.py`: re-entry gate and startup recovery -/

/-- Python `str.upper()` (character-wise uppercase). -/
def pyUpper (s : String) : String := String.mk (s.data.map Char.toUpper)

/-- `_pct(a, b) = abs(a-b) / max(1e-9, abs(b))`. -/
def _pct (a b : ℚ) : ℚ := |a - b| / max (1/1000000000) |b|

/-- The fields of the most recently closed trade that `_gate_reentry`
consults (from `_recent_closed_trade`; `closed` is a millisecond epoch). -/
structure LastTrade where
  side : Option String
  entry : Option ℚ
  closed : Option ℤ

/-- `_gate_reentry(now_ts, price, side)`.  `last_bar` is
`state['last_traded_bar_ts']`, `last` the most recent closed trade, `now_s`
the wall-clock second.  The f-string cool-off reason is modelled by a fixed
marker string (only blocked-vs-None matters to callers). -/
def _gate_reentry (cfg : Config) (last_bar : Option ℤ) (last : Option LastTrade)
    (now_s now_ts : ℤ) (price : ℚ) (side : String) : Option String :=
  if cfg.REQUIRE_NEW_BAR ∧ last_bar = some now_ts then
    some "same 5m bar (REQUIRE_NEW_BAR)"
  else
    match last with
    | none => none
    | some lt =>
      match lt.closed with
      | none => none
      | some closed =>
        if closed = 0 then none
        else
          let ago := max 0 (now_s - Int.fdiv closed 1000)
          if ago < cfg.MIN_REENTRY_SECONDS then
            let side_u := pyUpper side
            match lt.entry with
            | some e =>
              if (side_u = "LONG" ∨ side_u = "SHORT") ∧ lt.side = some side_u ∧
                  _pct price e < cfg.BLOCK_REENTRY_PCT then
                some "price too close to last entry (BLOCK_REENTRY_PCT)"
              else some "cool-off < MIN_REENTRY_SECONDS"
            | none => some "cool-off < MIN_REENTRY_SECONDS"
          else none

/-- **C6** (corrected).  The re-entry gate blocks (returns a reason) exactly
when within the cool-off window `ago < MIN_REENTRY_SECONDS` (given a passing
new-bar check and a truthy closed timestamp); the price-proximity reason —
same side as the last closed trade and
`|price − last_entry| / max(1e-9, |last_entry|) < BLOCK_REENTRY_PCT` — is
only ever produced inside that window.  Once the window has elapsed, the gate
returns None regardless of proximity, contra the original claim's "for every
elapsed time". -/
theorem C6_reentry_gate :
    ∀ (cfg : Config) (last_bar : Option ℤ) (ls : Option String) (e : ℚ)
      (closed now_s now_ts : ℤ) (price : ℚ) (side : String),
      ¬(cfg.REQUIRE_NEW_BAR = true ∧ last_bar = some now_ts) →
      closed ≠ 0 →
      ((cfg.MIN_REENTRY_SECONDS ≤ max 0 (now_s - Int.fdiv closed 1000) →
          _gate_reentry cfg last_bar (some ⟨ls, some e, some closed⟩)
            now_s now_ts price side = none) ∧
       (max 0 (now_s - Int.fdiv closed 1000) < cfg.MIN_REENTRY_SECONDS →
          _gate_reentry cfg last_bar (some ⟨ls, some e, some closed⟩)
            now_s now_ts price side ≠ none) ∧
       (max 0 (now_s - Int.fdiv closed 1000) < cfg.MIN_REENTRY_SECONDS →
          (_gate_reentry cfg last_bar (some ⟨ls, some e, some closed⟩)
              now_s now_ts price side =
            some "price too close to last entry (BLOCK_REENTRY_PCT)" ↔
           ((pyUpper side = "LONG" ∨ pyUpper side = "SHORT") ∧
             ls = some (pyUpper side) ∧ _pct price e < cfg.BLOCK_REENTRY_PCT)))) := by
  intro cfg last_bar ls e closed now_s now_ts price side hbar hcl
  unfold _gate_reentry
  rw [if_neg hbar]
  dsimp only
  rw [if_neg hcl]
  refine ⟨?_, ?_, ?_⟩
  · intro h
    rw [if_neg (not_lt.2 h)]
  · intro h
    rw [if_pos h]
    split
    · simp
    · simp
  · intro h
    rw [if_pos h]
    by_cases hc : (pyUpper side = "LONG" ∨ pyUpper side = "SHORT") ∧
        ls = some (pyUpper side) ∧ _pct price e < cfg.BLOCK_REENTRY_PCT
    · rw [if_pos hc]
      simp [hc]
    · rw [if_neg hc]
      simp [hc]

/-- Witness for C6: past the cool-off window the gate passes; inside it, a
same-side close-priced candidate gets the proximity reason. -/
theorem C6_reentry_gate_witness :
    (_gate_reentry defaultCfg none (some ⟨some "LONG", some 100, some 1000000⟩)
        2000 5 100.1 "LONG" = none) ∧
    (_gate_reentry defaultCfg none (some ⟨some "LONG", some 100, some 1000000⟩)
        1050 5 100.1 "LONG" =
      some "price too close to last entry (BLOCK_REENTRY_PCT)") := by
  have h1 := C6_reentry_gate defaultCfg none (some "LONG") 100 1000000 2000 5
    100.1 "LONG" (by simp) (by norm_num)
  have h2 := C6_reentry_gate defaultCfg none (some "LONG") 100 1000000 1050 5
    100.1 "LONG" (by simp) (by norm_num)
  constructor
  · exact h1.1 (by norm_num [defaultCfg, Int.fdiv])
  · exact (h2.2.2 (by norm_num [defaultCfg, Int.fdiv])).mpr
      ⟨Or.inl (by decide), by decide, by norm_num [_pct, defaultCfg, abs_of_nonneg]⟩

/-- Counterexample to C6 as stated: same side, price within 0.1% of the last
entry, but 1000 s after the close (past `MIN_REENTRY_SECONDS = 90`) the gate
returns None — the entry is not blocked. -/
theorem C6_counterexample :
    _pct 100.1 100 < defaultCfg.BLOCK_REENTRY_PCT ∧
    pyUpper "LONG" = "LONG" ∧
    _gate_reentry defaultCfg none (some ⟨some "LONG", some 100, some 1000000⟩)
        2000 5 100.1 "LONG" = none := by
  refine ⟨by norm_num [_pct, defaultCfg, abs_of_nonneg], by decide, ?_⟩
  unfold _gate_reentry
  rw [if_neg (by simp)]
  dsimp only
  rw [if_neg (by norm_num), if_neg (by norm_num [Int.fdiv, defaultCfg])]

/-! ### Recovery of open trades -/

/-- `calc_pnl(side, entry, exit_px, qty)` from `app/money.py` (`_f` is the
identity on finite floats, which is all this call site passes). -/
def calc_pnl (side : String) (entry exit_px qty : ℚ) : ℚ :=
  let s := pyUpper side
  if entry ≤ 0 ∨ qty ≤ 0 then 0
  else if s = "LONG" then (exit_px - entry) * qty
  else (entry - exit_px) * qty

/-- `_candle_sl_hit(is_long, hi, lo, sl)`. -/
def _candle_sl_hit (is_long : Bool) (hi lo sl : ℚ) : Bool :=
  if is_long then decide (lo ≤ sl) else decide (sl ≤ hi)

/-- One fetched 1m bar (timestamp, high, low). -/
structure Bar where
  ts : ℤ
  hi : ℚ
  lo : ℚ

/-- Per-trade outcome of `recover_open_trades`. -/
inductive RecOutcome where
  | closed (exit_px pnl : ℚ) (status : String)
  | resumed
deriving DecidableEq

/-- The per-trade body of `recover_open_trades`: find the first bar at or
after `created_ts` (`idx0`), scan from there for an SL hit; close at `sl`
with `calc_pnl` on a hit, else resume.  (`next(i for i,t in enumerate(ts) if
t >= created)` followed by a scan over `range(idx0, len)` is the
`dropWhile`-suffix; both no-candle and no-hit paths resume.) -/
def recover_one (tf1m : List Bar) (side : String) (entry sl qty : ℚ)
    (created : ℤ) : RecOutcome :=
  let sideU := pyUpper side
  let is_long := decide (sideU = "LONG")
  let rest := tf1m.dropWhile (fun b => !decide (created ≤ b.ts))
  if rest.any (fun b => _candle_sl_hit is_long b.hi b.lo sl) then
    RecOutcome.closed sl (calc_pnl sideU entry sl qty) "CLOSED_SL_RECOVERED"
  else RecOutcome.resumed

theorem mem_dropWhile_ts {created : ℤ} :
    ∀ (l : List Bar), List.Pairwise (fun a b => a.ts ≤ b.ts) l →
      ∀ b ∈ l.dropWhile (fun x => !decide (created ≤ x.ts)), created ≤ b.ts := by
  intro l
  induction l with
  | nil =>
    intro _ b hb
    simp [List.dropWhile] at hb
  | cons a t ih =>
    intro hp b hb
    rw [List.dropWhile_cons] at hb
    by_cases hpa : created ≤ a.ts
    · rw [if_neg (by simp [hpa])] at hb
      rcases List.mem_cons.1 hb with rfl | hbt
      · exact hpa
      · exact le_trans hpa ((List.pairwise_cons.1 hp).1 b hbt)
    · rw [if_pos (by simp [hpa])] at hb
      exact ih (List.pairwise_cons.1 hp).2 b hb

theorem mem_dropWhile_of_ts {created : ℤ} :
    ∀ (l : List Bar) (b : Bar), b ∈ l → created ≤ b.ts →
      b ∈ l.dropWhile (fun x => !decide (created ≤ x.ts)) := by
  intro l
  induction l with
  | nil =>
    intro b hb
    simp at hb
  | cons a t ih =>
    intro b hb hbts
    rw [List.dropWhile_cons]
    by_cases hpa : created ≤ a.ts
    · rw [if_neg (by simp [hpa])]
      exact hb
    · rw [if_pos (by simp [hpa])]
      rcases List.mem_cons.1 hb with rfl | hbt
      · exact absurd hbts hpa
      · exact ih b hbt hbts

/-- **C7** (confirmed).  Recovery soundness: for a trade with time-ordered
fetched 1m bars, if some bar at or after `created_ts` satisfies `low ≤ sl`
(LONG) / `high ≥ sl` (SHORT) then recovery closes the trade at exactly `sl`
with PnL `calc_pnl(side, entry, sl, qty)` and status `CLOSED_SL_RECOVERED`;
otherwise the trade is resumed, not closed. -/
theorem C7_recovery_soundness :
    ∀ (tf1m : List Bar) (side : String) (entry sl qty : ℚ) (created : ℤ),
      List.Pairwise (fun a b => a.ts ≤ b.ts) tf1m →
      ((∃ b ∈ tf1m, created ≤ b.ts ∧
          (if pyUpper side = "LONG" then b.lo ≤ sl else sl ≤ b.hi)) →
        recover_one tf1m side entry sl qty created =
          RecOutcome.closed sl (calc_pnl (pyUpper side) entry sl qty)
            "CLOSED_SL_RECOVERED") ∧
      ((¬∃ b ∈ tf1m, created ≤ b.ts ∧
          (if pyUpper side = "LONG" then b.lo ≤ sl else sl ≤ b.hi)) →
        recover_one tf1m side entry sl qty created = RecOutcome.resumed) := by
  intro tf1m side entry sl qty created hs
  have hhit : ∀ b : Bar,
      (_candle_sl_hit (decide (pyUpper side = "LONG")) b.hi b.lo sl = true) ↔
      (if pyUpper side = "LONG" then b.lo ≤ sl else sl ≤ b.hi) := by
    intro b
    by_cases h : pyUpper side = "LONG" <;> simp [_candle_sl_hit, h]
  constructor
  · rintro ⟨b, hbmem, hbts, hbcond⟩
    unfold recover_one
    dsimp only
    rw [if_pos (List.any_eq_true.2
      ⟨b, mem_dropWhile_of_ts tf1m b hbmem hbts, (hhit b).mpr hbcond⟩)]
  · intro hne
    unfold recover_one
    dsimp only
    rw [if_neg (fun hany => ?_)]
    rcases List.any_eq_true.1 hany with ⟨b, hbm, hbp⟩
    exact hne ⟨b, (List.dropWhile_sublist _).subset hbm,
      mem_dropWhile_ts tf1m hs b hbm, (hhit b).mp hbp⟩

/-- Witness for C7: a single post-creation bar whose low pierces the stop
closes the trade at `sl`; with the stop below the bar's range, the trade is
resumed. -/
theorem C7_recovery_soundness_witness :
    recover_one [Bar.mk 100 101 99] "LONG" 100 99.5 2 50 =
      RecOutcome.closed 99.5 (calc_pnl (pyUpper "LONG") 100 99.5 2)
        "CLOSED_SL_RECOVERED" ∧
    recover_one [Bar.mk 100 101 99] "LONG" 100 98 2 50 = RecOutcome.resumed := by
  have h1 := C7_recovery_soundness [Bar.mk 100 101 99] "LONG" 100 99.5 2 50 (by simp)
  have h2 := C7_recovery_soundness [Bar.mk 100 101 99] "LONG" 100 98 2 50 (by simp)
  constructor
  · refine h1.1 ⟨Bar.mk 100 101 99, by simp, by norm_num, ?_⟩
    rw [show pyUpper "LONG" = "LONG" from by decide]
    norm_num
  · refine h2.2 ?_
    rintro ⟨b, hb, hts, hcond⟩
    simp only [List.mem_singleton] at hb
    subst hb
    rw [show pyUpper "LONG" = "LONG" from by decide] at hcond
    norm_num at hcond

/-! ## `app/money.py`: position sizing

Inputs are modelled as `Fl`: a finite float, a NaN, or a non-numeric value
(anything `float(·)` raises on).  `_f` mirrors the source's coercion with
default.  Module-level environment constants live in `Config`
(`MIN_SL_PCT_MONEY` models money.py's `MIN_SL_PCT`, distinct from the
app-config key of the same name). -/

/-- A Python value in a float position: a finite number, NaN, or something
non-numeric. -/
inductive Fl where
  | num (q : ℚ)
  | nan
  | bad
deriving DecidableEq

/-- `_f(x, d)`: `float(x)`, with `d` on NaN or conversion failure. -/
def _f (x : Fl) (d : ℚ) : ℚ :=
  match x with
  | .num q => q
  | .nan => d
  | .bad => d

/-- Truthiness of the sign condition used for the zero guards. -/
def nonPosFl (x : Fl) : Prop :=
  match x with
  | .num q => q ≤ 0
  | .nan => True
  | .bad => True

instance : DecidablePred nonPosFl := by
  intro x
  unfold nonPosFl
  match x with
  | .num q => exact inferInstance
  | .nan => exact inferInstance
  | .bad => exact inferInstance

/-- `_min_sl_fraction()`: `MIN_SL_FRAC` when set positive, else
`MIN_SL_PCT/100` (the percent fallback collapses to the module constant over
100 for every environment). -/
def _min_sl_fraction (cfg : Config) : ℚ :=
  match cfg.MIN_SL_FRAC with
  | some fr => if 0 < fr then fr else cfg.MIN_SL_PCT_MONEY / 100
  | none => cfg.MIN_SL_PCT_MONEY / 100

/-- `_qty_capital(balance_quote, entry)`. -/
def _qty_capital (cfg : Config) (balance_quote entry : Fl) : ℚ :=
  let bal := _f balance_quote 0
  let e := _f entry 0
  if bal ≤ 0 ∨ e ≤ 0 then 0
  else max 0 ((bal * max cfg.CAPITAL_FRACTION 0 * max cfg.MAX_LEVERAGE 1) / e)

/-- `_qty_risk(balance_quote, entry, sl)`. -/
def _qty_risk (cfg : Config) (balance_quote entry sl : Fl) : ℚ :=
  let bal := _f balance_quote 0
  let e := _f entry 0
  let s := _f sl 0
  if bal ≤ 0 ∨ e ≤ 0 ∨ s ≤ 0 then 0
  else
    let raw_loss := |e - s|
    let min_by_pct := e * max (_min_sl_fraction cfg) 0
    let min_by_abs := max cfg.MIN_SL_ABS 0
    let per_unit_loss := max raw_loss (max min_by_pct min_by_abs)
    if per_unit_loss ≤ 0 then 0
    else max 0 ((bal * (max cfg.RISK_PCT 0 / 100)) / per_unit_loss)

/-- `_apply_qty_caps(qty)`. -/
def _apply_qty_caps (cfg : Config) (qty : ℚ) : ℚ :=
  let q := max 0 qty
  let q := if 0 < cfg.MAX_QTY_CAP then min q cfg.MAX_QTY_CAP else q
  if 0 < q ∧ q < max cfg.MIN_QTY 0 then max cfg.MIN_QTY 0 else q

/-- Python `str.lower()`. -/
def pyLower (s : String) : String := String.mk (s.data.map Char.toLower)

/-- Python `str.strip()`. -/
def pyStrip (s : String) : String :=
  String.mk (((s.data.dropWhile Char.isWhitespace).reverse.dropWhile
    Char.isWhitespace).reverse)

/-- The paper-trading balance substitution at the top of `choose_size`:
under `DRY_RUN` with `PAPER_USE_START_BALANCE`, a truthy
`PAPER_START_BALANCE` replaces the live balance (a failing `float(...)` is
swallowed, leaving the argument). -/
def eff_balance (cfg : Config) (balance_quote : Fl) : Fl :=
  if cfg.DRY_RUN ∧ cfg.PAPER_USE_START_BALANCE then
    (if cfg.PAPER_START_BALANCE ≠ 0 then Fl.num cfg.PAPER_START_BALANCE
     else balance_quote)
  else balance_quote

/-- The quantity selected by `choose_size` before the notional floor and the
final caps: mode selection over `_qty_capital` / `_qty_risk` on the effective
balance, then the MIN_QTY snap bounded by the capital allowance. -/
def sized_q (cfg : Config) (balance_quote entry sl : Fl) : ℚ :=
  let effective_balance := eff_balance cfg balance_quote
  let mode := pyLower (pyStrip
    (if cfg.SIZING_MODE = "" then "capital_frac" else cfg.SIZING_MODE))
  let qc := _qty_capital cfg effective_balance entry
  let qr := _qty_risk cfg effective_balance entry sl
  let q := if mode = "capital_frac" then qc
           else if mode = "risk_r" then qr
           else (if 0 < qc ∧ 0 < qr then min qc qr else max qc qr)
  let min_q := max cfg.MIN_QTY 0
  if 0 < q ∧ q < min_q then
    (let cap_q := if 0 < qc then qc else _qty_capital cfg balance_quote entry
     if 0 < cap_q then min min_q cap_q else q)
  else q

/-- `choose_size(balance_quote, entry, sl)`.  Returns `none` exactly where
the source raises: the notional-floor line compares the raw `entry` with `0`
before short-circuiting on `q`, a `TypeError` for non-numeric `entry` when
`NOTIONAL_MIN > 0`. -/
def choose_size (cfg : Config) (balance_quote entry sl : Fl) : Option ℚ :=
  let q := sized_q cfg balance_quote entry sl
  if 0 < cfg.NOTIONAL_MIN then
    match entry with
    | .bad => none
    | .nan => some (_apply_qty_caps cfg q)
    | .num e =>
      if 0 < e ∧ 0 < q ∧ e * q < cfg.NOTIONAL_MIN then some 0
      else some (_apply_qty_caps cfg q)
  else some (_apply_qty_caps cfg q)

theorem _apply_qty_caps_nonneg (cfg : Config) (q : ℚ) :
    0 ≤ _apply_qty_caps cfg q := by
  unfold _apply_qty_caps
  dsimp only
  by_cases h2 : 0 < cfg.MAX_QTY_CAP
  · rw [if_pos h2]
    by_cases h3 : 0 < min (max 0 q) cfg.MAX_QTY_CAP ∧
        min (max 0 q) cfg.MAX_QTY_CAP < max cfg.MIN_QTY 0
    · rw [if_pos h3]
      exact le_max_right _ _
    · rw [if_neg h3]
      exact le_min (le_max_left _ _) (le_of_lt h2)
  · rw [if_neg h2]
    by_cases h3 : 0 < max 0 q ∧ max 0 q < max cfg.MIN_QTY 0
    · rw [if_pos h3]
      exact le_max_right _ _
    · rw [if_neg h3]
      exact le_max_left _ _

theorem _apply_qty_caps_zero (cfg : Config) : _apply_qty_caps cfg 0 = 0 := by
  unfold _apply_qty_caps
  dsimp only
  rw [max_self 0]
  by_cases h2 : 0 < cfg.MAX_QTY_CAP
  · rw [if_pos h2, min_eq_left (le_of_lt h2), if_neg (by simp)]
  · rw [if_neg h2, if_neg (by simp)]

theorem _qty_capital_zero_of_bal (cfg : Config) (balance entry : Fl)
    (h : _f balance 0 ≤ 0) : _qty_capital cfg balance entry = 0 := by
  unfold _qty_capital
  rw [if_pos (Or.inl h)]

theorem _qty_capital_zero_of_entry (cfg : Config) (balance entry : Fl)
    (h : _f entry 0 ≤ 0) : _qty_capital cfg balance entry = 0 := by
  unfold _qty_capital
  rw [if_pos (Or.inr h)]

theorem _qty_risk_zero_of_bal (cfg : Config) (balance entry sl : Fl)
    (h : _f balance 0 ≤ 0) : _qty_risk cfg balance entry sl = 0 := by
  unfold _qty_risk
  rw [if_pos (Or.inl h)]

theorem _qty_risk_zero_of_entry (cfg : Config) (balance entry sl : Fl)
    (h : _f entry 0 ≤ 0) : _qty_risk cfg balance entry sl = 0 := by
  unfold _qty_risk
  rw [if_pos (Or.inr (Or.inl h))]

theorem nonPosFl_f {x : Fl} (h : nonPosFl x) : _f x 0 ≤ 0 := by
  match x with
  | .num q => exact h
  | .nan => exact le_refl 0
  | .bad => exact le_refl 0

/-- The sizing-mode selection collapses to 0 when both component sizes are 0. -/
theorem mode_select_zero (m : String) :
    (if m = "capital_frac" then (0:ℚ)
     else if m = "risk_r" then (0:ℚ)
     else (if 0 < (0:ℚ) ∧ 0 < (0:ℚ) then min (0:ℚ) 0 else max (0:ℚ) 0)) = 0 := by
  split
  · rfl
  · split
    · rfl
    · rw [if_neg (by simp)]
      exact max_self 0

/-- When both component sizes vanish, the selected quantity is 0. -/
theorem sized_q_eq_zero (cfg : Config) (balance entry sl : Fl)
    (hqc : _qty_capital cfg (eff_balance cfg balance) entry = 0)
    (hqr : _qty_risk cfg (eff_balance cfg balance) entry sl = 0) :
    sized_q cfg balance entry sl = 0 := by
  unfold sized_q
  dsimp only
  rw [hqc, hqr, mode_select_zero, if_neg (by simp)]

/-- **C10** (corrected).  Sizing totality and non-negativity: every value
`choose_size` returns is `≥ 0`; it returns (no exception) whenever
`NOTIONAL_MIN ≤ 0` or `entry` is numeric-or-NaN; and it returns exactly 0
whenever `entry`, or the *effective* balance (the paper start balance under
`DRY_RUN` paper sizing, else `balance_quote`), is non-positive, NaN or
non-numeric.  Contra the original claim, a non-positive `balance_quote` does
not force 0 when the paper substitution is active, and a non-numeric `entry`
raises `TypeError` when `NOTIONAL_MIN > 0`. -/
theorem C10_choose_size :
    ∀ (cfg : Config) (balance entry sl : Fl),
      (∀ q, choose_size cfg balance entry sl = some q → 0 ≤ q) ∧
      (cfg.NOTIONAL_MIN ≤ 0 ∨ entry ≠ Fl.bad →
        choose_size cfg balance entry sl ≠ none) ∧
      (nonPosFl entry → choose_size cfg balance entry sl ≠ none →
        choose_size cfg balance entry sl = some 0) ∧
      (nonPosFl (eff_balance cfg balance) → choose_size cfg balance entry sl ≠ none →
        choose_size cfg balance entry sl = some 0) := by
  intro cfg balance entry sl
  refine ⟨?_, ?_, ?_, ?_⟩
  · intro q hq
    cases entry with
    | bad =>
      unfold choose_size at hq
      dsimp only at hq
      split at hq
      · exact Option.noConfusion hq
      · cases hq
        exact _apply_qty_caps_nonneg _ _
    | nan =>
      unfold choose_size at hq
      dsimp only at hq
      split at hq
      · cases hq
        exact _apply_qty_caps_nonneg _ _
      · cases hq
        exact _apply_qty_caps_nonneg _ _
    | num e =>
      unfold choose_size at hq
      dsimp only at hq
      split at hq
      · split at hq
        · cases hq
          exact le_refl 0
        · cases hq
          exact _apply_qty_caps_nonneg _ _
      · cases hq
        exact _apply_qty_caps_nonneg _ _
  · intro h
    cases entry with
    | bad =>
      rcases h with h | h
      · unfold choose_size
        dsimp only
        rw [if_neg (not_lt.2 h)]
        exact Option.some_ne_none _
      · exact absurd rfl h
    | nan =>
      unfold choose_size
      dsimp only
      split
      · exact Option.some_ne_none _
      · exact Option.some_ne_none _
    | num e =>
      unfold choose_size
      dsimp only
      split
      · split
        · exact Option.some_ne_none _
        · exact Option.some_ne_none _
      · exact Option.some_ne_none _
  · intro hent hne
    have hq0 : sized_q cfg balance entry sl = 0 :=
      sized_q_eq_zero cfg balance entry sl
        (_qty_capital_zero_of_entry _ _ _ (nonPosFl_f hent))
        (_qty_risk_zero_of_entry _ _ _ _ (nonPosFl_f hent))
    cases entry with
    | bad =>
      by_cases hN : 0 < cfg.NOTIONAL_MIN
      · unfold choose_size at hne
        dsimp only at hne
        rw [if_pos hN] at hne
        exact absurd rfl hne
      · unfold choose_size
        dsimp only
        rw [hq0, if_neg hN, _apply_qty_caps_zero]
    | nan =>
      unfold choose_size
      dsimp only
      rw [hq0]
      by_cases hN : 0 < cfg.NOTIONAL_MIN
      · rw [if_pos hN]
        rw [_apply_qty_caps_zero]
      · rw [if_neg hN, _apply_qty_caps_zero]
    | num e =>
      unfold choose_size
      dsimp only
      rw [hq0]
      by_cases hN : 0 < cfg.NOTIONAL_MIN
      · rw [if_pos hN]
        rw [if_neg (by
            rintro ⟨h1, h2, h3⟩
            exact absurd h2 (by norm_num)),
          _apply_qty_caps_zero]
      · rw [if_neg hN, _apply_qty_caps_zero]
  · intro hbal hne
    have hq0 : sized_q cfg balance entry sl = 0 :=
      sized_q_eq_zero cfg balance entry sl
        (_qty_capital_zero_of_bal _ _ _ (nonPosFl_f hbal))
        (_qty_risk_zero_of_bal _ _ _ _ (nonPosFl_f hbal))
    cases entry with
    | bad =>
      by_cases hN : 0 < cfg.NOTIONAL_MIN
      · unfold choose_size at hne
        dsimp only at hne
        rw [if_pos hN] at hne
        exact absurd rfl hne
      · unfold choose_size
        dsimp only
        rw [hq0, if_neg hN, _apply_qty_caps_zero]
    | nan =>
      unfold choose_size
      dsimp only
      rw [hq0]
      by_cases hN : 0 < cfg.NOTIONAL_MIN
      · rw [if_pos hN]
        rw [_apply_qty_caps_zero]
      · rw [if_neg hN, _apply_qty_caps_zero]
    | num e =>
      unfold choose_size
      dsimp only
      rw [hq0]
      by_cases hN : 0 < cfg.NOTIONAL_MIN
      · rw [if_pos hN]
        rw [if_neg (by
            rintro ⟨h1, h2, h3⟩
            exact absurd h2 (by norm_num)),
          _apply_qty_caps_zero]
      · rw [if_neg hN, _apply_qty_caps_zero]

/-- Witness for C10: a negative entry sizes to exactly 0 under the default
configuration. -/
theorem C10_choose_size_witness :
    choose_size defaultCfg (Fl.num 500) (Fl.num (-5)) (Fl.num 1) = some 0 := by
  have h := C10_choose_size defaultCfg (Fl.num 500) (Fl.num (-5)) (Fl.num 1)
  exact h.2.2.1 (by norm_num [nonPosFl])
    (h.2.1 (Or.inl (by norm_num [defaultCfg])))

/-- Counterexample to C10 as stated: with the default paper-trading config
(`DRY_RUN` and `PAPER_USE_START_BALANCE` with start balance 1000), a negative
live balance still sizes to 10 contracts. -/
theorem C10_counterexample :
    choose_size defaultCfg (Fl.num (-5)) (Fl.num 100) (Fl.num 99) = some 10 ∧
    ¬((10 : ℚ) = 0) := by
  have hmode : pyLower (pyStrip
      (if defaultCfg.SIZING_MODE = "" then "capital_frac"
       else defaultCfg.SIZING_MODE)) = "capital_frac" := by decide
  constructor
  · unfold choose_size sized_q
    rw [hmode]
    norm_num [eff_balance, _qty_capital, _qty_risk, _apply_qty_caps,
      _min_sl_fraction, _f, defaultCfg, abs_of_nonneg]
  · norm_num

/-! ## `app/taser_rules.py` / `app/tp_calc.py`: take-profit ladders -/

/-- The strict-dedup pass of `_order_tps` (ascending): keep an element only
when it strictly exceeds the last kept one. -/
def dedup_asc : List ℚ → Option ℚ → List ℚ
  | [], _ => []
  | x :: xs, none => x :: dedup_asc xs (some x)
  | x :: xs, some l =>
    if l < x then x :: dedup_asc xs (some x) else dedup_asc xs (some l)

/-- The strict-dedup pass of `_order_tps` (descending). -/
def dedup_desc : List ℚ → Option ℚ → List ℚ
  | [], _ => []
  | x :: xs, none => x :: dedup_desc xs (some x)
  | x :: xs, some l =>
    if x < l then x :: dedup_desc xs (some x) else dedup_desc xs (some l)

/-- `_order_tps(side, tps)`: round to 4dp, sort (ascending for LONG,
descending otherwise), strictly dedup, keep at most 3. -/
def _order_tps (side : String) (tps : List ℚ) : List ℚ :=
  if tps = [] then []
  else
    let arr := tps.map round4
    if arr = [] then []
    else if pyUpper side = "LONG" then
      (dedup_asc (arr.insertionSort (· ≤ ·)) none).take 3
    else
      (dedup_desc (arr.insertionSort (· ≥ ·)) none).take 3

/-- `base = keep[-1] if keep else entry` in the `_tp_guard` padding loop. -/
def pad_base (entry : ℚ) (keep : List ℚ) : ℚ :=
  match keep.getLast? with
  | none => entry
  | some b => b

/-- `step = max(gap, keep[-1]-(keep[-2] if len(keep)>=2 else entry))` (LONG). -/
def pad_step_long (entry gap : ℚ) (keep : List ℚ) : ℚ :=
  match keep.reverse with
  | [] => gap
  | [a] => max gap (a - entry)
  | a :: b :: _ => max gap (a - b)

/-- `step = max(gap, (keep[-2] if len(keep)>=2 else entry)-keep[-1])` (SHORT). -/
def pad_step_short (entry gap : ℚ) (keep : List ℚ) : ℚ :=
  match keep.reverse with
  | [] => gap
  | [a] => max gap (entry - a)
  | a :: b :: _ => max gap (b - a)

/-- The `while len(keep) < 3` padding loop of `_tp_guard` for LONG (the loop
runs at most 3 times; `fuel` = 3 at the call site). -/
def tp_pad_long (entry gap : ℚ) : Nat → List ℚ → List ℚ
  | 0, keep => keep
  | n + 1, keep =>
    if keep.length < 3 then
      tp_pad_long entry gap n
        (keep ++ [round4 (pad_base entry keep + pad_step_long entry gap keep)])
    else keep

/-- The padding loop of `_tp_guard` for SHORT. -/
def tp_pad_short (entry gap : ℚ) : Nat → List ℚ → List ℚ
  | 0, keep => keep
  | n + 1, keep =>
    if keep.length < 3 then
      tp_pad_short entry gap n
        (keep ++ [round4 (pad_base entry keep - pad_step_short entry gap keep)])
    else keep

/-- `_tp_guard(side, entry, sl, tps, atr)`: keep the targets strictly beyond
entry, order them, pad to 3 with `max(0.6·atr, 0.8·R)`-sized steps, order
again. -/
def _tp_guard (side : String) (entry sl : ℚ) (tps : List ℚ) (atr : ℚ) :
    List ℚ :=
  let sideU := pyUpper side
  let eps := (1 : ℚ)/100000000
  let R := max (1/1000000000) |entry - sl|
  let gap := max (0.6 * atr) (0.8 * R)
  if sideU = "LONG" then
    let keep := tps.filter (fun x => decide (entry + eps < x))
    let keep := _order_tps "LONG" keep
    _order_tps "LONG" ((tp_pad_long entry gap 3 keep).take 3)
  else
    let keep := tps.filter (fun x => decide (x < entry - eps))
    let keep := _order_tps "SHORT" keep
    _order_tps "SHORT" ((tp_pad_short entry gap 3 keep).take 3)

/-- The LONG stretch branch of `_enforce_min_r`: `tp1 = round(entry+need,4)`
and the later targets re-spaced by `gap` (or taken from the old ladder when
further out). -/
def stretch_tps_long (entry need gap : ℚ) (tps : List ℚ) : List ℚ :=
  let tp1 := round4 (entry + need)
  let tp2 := max (tp1 + gap)
    (match tps[1]? with | some x => x | none => tp1 + 1.2 * gap)
  let tp3 := max (tp2 + gap)
    (match tps[2]? with | some x => x | none => tp2 + 1.2 * gap)
  _order_tps "LONG" [tp1, tp2, tp3]

/-- The SHORT stretch branch of `_enforce_min_r`. -/
def stretch_tps_short (entry need gap : ℚ) (tps : List ℚ) : List ℚ :=
  let tp1 := round4 (entry - need)
  let tp2 := min (tp1 - gap)
    (match tps[1]? with | some x => x | none => tp1 - 1.2 * gap)
  let tp3 := min (tp2 - gap)
    (match tps[2]? with | some x => x | none => tp2 - 1.2 * gap)
  _order_tps "SHORT" [tp1, tp2, tp3]

/-- `_enforce_min_r(entry, sl, tps, side, atr)`: require the first target to
sit at least `min(MIN_R_MULT·R, TP1_ABS)` from entry, stretching and
re-spacing the ladder when it does not. -/
def _enforce_min_r (cfg : Config) (entry sl : ℚ) (tps : List ℚ)
    (side : String) (atr : ℚ) : List ℚ :=
  match tps with
  | [] => []
  | t0 :: _ =>
    let R := max (1/1000000000) |entry - sl|
    let need := min (cfg.MIN_R_MULT * R) cfg.TP1_ABS
    let sideU := pyUpper side
    if need ≤ |t0 - entry| + 1/1000000000000 then _order_tps sideU tps
    else if sideU = "LONG" then
      stretch_tps_long entry need (max (0.6 * atr) (0.8 * R)) tps
    else
      stretch_tps_short entry need (max (0.6 * atr) (0.8 * R)) tps

/-- `compute_tps(price, sl, side, atr_ref, adx_last, C)` from `tp_calc.py`
(the legacy price list; the `TS_TP_STRUCTURED` variant wraps the same prices
with size fractions).  `TS_TP_R` and the ATR mult lists carry the
`_floats_csv`-parsed values (non-empty, at most 3 after `take 3`). -/
def compute_tps (cfg : Config) (price sl : ℚ) (side : String)
    (atr_ref adx_last : ℚ) : List ℚ :=
  let sideU := pyUpper side
  let tp_mode := pyLower (pyStrip cfg.TP_MODE)
  let raw :=
    if tp_mode = "atr" then
      let atr_pct := atr_ref / max (1/1000000000) price
      let mults :=
        if cfg.MODE_ADAPT_ENABLED then
          (if atr_pct ≤ cfg.MODE_CHOP_ATR_PCT_MAX ∧
              adx_last ≤ cfg.MODE_CHOP_ADX_MAX then
            cfg.MODE_CHOP_TP_ATR_MULTS.take 3
          else cfg.MODE_RALLY_TP_ATR_MULTS.take 3)
        else [cfg.TP1_ATR_MULT, cfg.TP2_ATR_MULT, cfg.TP3_ATR_MULT]
      mults.take 3 |>.map (fun m =>
        if sideU = "LONG" then price + m * atr_ref else price - m * atr_ref)
    else
      let rmults := cfg.TS_TP_R.take 3
      let R := max (1/1000000000) |price - sl|
      rmults.map (fun m =>
        if sideU = "LONG" then price + m * R else price - m * R)
  let tps := _order_tps sideU raw
  let tps := _enforce_min_r cfg price sl tps sideU atr_ref
  let tps := _tp_guard sideU price sl tps atr_ref
  tps.map round4

/-! ### Structure of `_order_tps` (ascending side) -/

theorem mem_dedup_asc : ∀ (xs : List ℚ) (l : Option ℚ) (y : ℚ),
    y ∈ dedup_asc xs l → y ∈ xs := by
  intro xs
  induction xs with
  | nil =>
    intro l y hy
    cases l <;> simp [dedup_asc] at hy
  | cons x t ih =>
    intro l y hy
    cases l with
    | none =>
      simp only [dedup_asc] at hy
      rcases List.mem_cons.1 hy with rfl | hy2
      · exact List.mem_cons_self _ _
      · exact List.mem_cons_of_mem _ (ih _ _ hy2)
    | some l =>
      simp only [dedup_asc] at hy
      split at hy
      · rcases List.mem_cons.1 hy with rfl | hy2
        · exact List.mem_cons_self _ _
        · exact List.mem_cons_of_mem _ (ih _ _ hy2)
      · exact List.mem_cons_of_mem _ (ih _ _ hy)

theorem dedup_asc_strict : ∀ (xs : List ℚ), List.Pairwise (· ≤ ·) xs →
    ∀ l : ℚ, List.Pairwise (· < ·) (dedup_asc xs (some l)) ∧
      ∀ y ∈ dedup_asc xs (some l), l < y := by
  intro xs
  induction xs with
  | nil =>
    intro _ l
    exact ⟨List.Pairwise.nil, by simp [dedup_asc]⟩
  | cons x t ih =>
    intro hp l
    have ht := (List.pairwise_cons.1 hp).2
    by_cases hlx : l < x
    · simp only [dedup_asc]
      rw [if_pos hlx]
      refine ⟨List.pairwise_cons.2 ⟨fun y hy => (ih ht x).2 y hy, (ih ht x).1⟩, ?_⟩
      intro y hy
      rcases List.mem_cons.1 hy with rfl | hy2
      · exact hlx
      · exact lt_trans hlx ((ih ht x).2 y hy2)
    · simp only [dedup_asc]
      rw [if_neg hlx]
      exact ih ht l

theorem dedup_asc_pairwise (xs : List ℚ) (hp : List.Pairwise (· ≤ ·) xs) :
    List.Pairwise (· < ·) (dedup_asc xs none) := by
  cases xs with
  | nil => simp [dedup_asc]
  | cons x t =>
    simp only [dedup_asc]
    have ht := (List.pairwise_cons.1 hp).2
    exact List.pairwise_cons.2
      ⟨fun y hy => (dedup_asc_strict t ht x).2 y hy, (dedup_asc_strict t ht x).1⟩

theorem dedup_asc_eq_self : ∀ (xs : List ℚ), List.Pairwise (· < ·) xs →
    dedup_asc xs none = xs ∧
      ∀ l : ℚ, (∀ y ∈ xs, l < y) → dedup_asc xs (some l) = xs := by
  intro xs
  induction xs with
  | nil => exact fun _ => ⟨rfl, fun _ _ => rfl⟩
  | cons x t ih =>
    intro hp
    have hhead := (List.pairwise_cons.1 hp).1
    have ht := (List.pairwise_cons.1 hp).2
    have htail : dedup_asc t (some x) = t := (ih ht).2 x hhead
    constructor
    · simp only [dedup_asc]
      rw [htail]
    · intro l hl
      simp only [dedup_asc]
      rw [if_pos (hl x (List.mem_cons_self _ _)), htail]

/-- `map round4` is the identity on lists of 4dp values. -/
theorem map_round4_id : ∀ (l : List ℚ), (∀ y ∈ l, round4 y = y) →
    l.map round4 = l := by
  intro l
  induction l with
  | nil => intro _; rfl
  | cons a t ih =>
    intro h4
    rw [List.map_cons, h4 a (List.mem_cons_self a t),
      ih (fun y hy => h4 y (List.mem_cons_of_mem a hy))]

theorem _order_tps_long_eq (xs : List ℚ) (h : xs ≠ []) :
    _order_tps "LONG" xs =
      (dedup_asc ((xs.map round4).insertionSort (· ≤ ·)) none).take 3 := by
  unfold _order_tps
  rw [if_neg h]
  dsimp only
  rw [if_neg (by simp [h]), if_pos (by decide)]

theorem _order_tps_long_mem (xs : List ℚ) (y : ℚ)
    (hy : y ∈ _order_tps "LONG" xs) : ∃ x ∈ xs, y = round4 x := by
  by_cases h : xs = []
  · subst h
    simp [_order_tps] at hy
  · rw [_order_tps_long_eq xs h] at hy
    have h1 := List.take_subset 3 _ hy
    have h2 := mem_dedup_asc _ _ _ h1
    have h3 : y ∈ xs.map round4 :=
      (List.perm_insertionSort (· ≤ ·) (xs.map round4)).mem_iff.1 h2
    rcases List.mem_map.1 h3 with ⟨x, hx, hxy⟩
    exact ⟨x, hx, hxy.symm⟩

theorem _order_tps_long_pairwise (xs : List ℚ) :
    List.Pairwise (· < ·) (_order_tps "LONG" xs) := by
  by_cases h : xs = []
  · subst h
    simp [_order_tps]
  · rw [_order_tps_long_eq xs h]
    refine List.Pairwise.sublist (List.take_sublist _ _) ?_
    exact dedup_asc_pairwise _ (List.sorted_insertionSort (· ≤ ·) _)

theorem _order_tps_long_len (xs : List ℚ) : (_order_tps "LONG" xs).length ≤ 3 := by
  by_cases h : xs = []
  · subst h
    simp [_order_tps]
  · rw [_order_tps_long_eq xs h]
    exact List.length_take_le _ _

theorem _order_tps_long_id (l : List ℚ) (hp : List.Pairwise (· < ·) l)
    (h4 : ∀ y ∈ l, round4 y = y) (hl : l.length ≤ 3) :
    _order_tps "LONG" l = l := by
  by_cases h : l = []
  · subst h
    simp [_order_tps]
  · rw [_order_tps_long_eq l h, map_round4_id l h4,
      List.Sorted.insertionSort_eq (hp.imp le_of_lt),
      (dedup_asc_eq_self l hp).1]
    exact List.take_of_length_le hl

theorem _order_tps_long_head (xs : List ℚ) (h : xs ≠ []) :
    ∃ h0 t0, _order_tps "LONG" xs = h0 :: t0 ∧ (∃ x ∈ xs, h0 = round4 x) ∧
      ∀ x ∈ xs, h0 ≤ round4 x := by
  rw [_order_tps_long_eq xs h]
  have hperm := List.perm_insertionSort (· ≤ ·) (xs.map round4)
  have hsorted := List.sorted_insertionSort (· ≤ ·) (xs.map round4)
  cases hsl : (xs.map round4).insertionSort (· ≤ ·) with
  | nil =>
    exfalso
    have hh := hperm.length_eq
    rw [hsl] at hh
    simp only [List.length_nil, List.length_map] at hh
    exact h (List.eq_nil_of_length_eq_zero hh.symm)
  | cons h0 t =>
    refine ⟨h0, (dedup_asc t (some h0)).take 2, ?_, ?_, ?_⟩
    · simp only [dedup_asc]
      rfl
    · have : h0 ∈ xs.map round4 := by
        rw [← hperm.mem_iff, hsl]
        exact List.mem_cons_self _ _
      rcases List.mem_map.1 this with ⟨x, hx, hxy⟩
      exact ⟨x, hx, hxy.symm⟩
    · intro x hx
      have hmem : round4 x ∈ (h0 :: t) := by
        rw [← hsl, hperm.mem_iff]
        exact List.mem_map_of_mem round4 hx
      rcases List.mem_cons.1 hmem with heq | hmem2
      · rw [heq]
      · rw [hsl] at hsorted
        exact (List.pairwise_cons.1 hsorted).1 _ hmem2

/-! ### Structure of `_order_tps` (descending side) -/

theorem mem_dedup_desc : ∀ (xs : List ℚ) (l : Option ℚ) (y : ℚ),
    y ∈ dedup_desc xs l → y ∈ xs := by
  intro xs
  induction xs with
  | nil =>
    intro l y hy
    cases l <;> simp [dedup_desc] at hy
  | cons x t ih =>
    intro l y hy
    cases l with
    | none =>
      simp only [dedup_desc] at hy
      rcases List.mem_cons.1 hy with rfl | hy2
      · exact List.mem_cons_self _ _
      · exact List.mem_cons_of_mem _ (ih _ _ hy2)
    | some l =>
      simp only [dedup_desc] at hy
      split at hy
      · rcases List.mem_cons.1 hy with rfl | hy2
        · exact List.mem_cons_self _ _
        · exact List.mem_cons_of_mem _ (ih _ _ hy2)
      · exact List.mem_cons_of_mem _ (ih _ _ hy)

theorem dedup_desc_strict : ∀ (xs : List ℚ), List.Pairwise (· ≥ ·) xs →
    ∀ l : ℚ, List.Pairwise (· > ·) (dedup_desc xs (some l)) ∧
      ∀ y ∈ dedup_desc xs (some l), y < l := by
  intro xs
  induction xs with
  | nil =>
    intro _ l
    exact ⟨List.Pairwise.nil, by simp [dedup_desc]⟩
  | cons x t ih =>
    intro hp l
    have ht := (List.pairwise_cons.1 hp).2
    by_cases hlx : x < l
    · simp only [dedup_desc]
      rw [if_pos hlx]
      refine ⟨List.pairwise_cons.2 ⟨fun y hy => (ih ht x).2 y hy, (ih ht x).1⟩, ?_⟩
      intro y hy
      rcases List.mem_cons.1 hy with rfl | hy2
      · exact hlx
      · exact lt_trans ((ih ht x).2 y hy2) hlx
    · simp only [dedup_desc]
      rw [if_neg hlx]
      exact ih ht l

theorem dedup_desc_pairwise (xs : List ℚ) (hp : List.Pairwise (· ≥ ·) xs) :
    List.Pairwise (· > ·) (dedup_desc xs none) := by
  cases xs with
  | nil => simp [dedup_desc]
  | cons x t =>
    simp only [dedup_desc]
    have ht := (List.pairwise_cons.1 hp).2
    exact List.pairwise_cons.2
      ⟨fun y hy => (dedup_desc_strict t ht x).2 y hy, (dedup_desc_strict t ht x).1⟩

theorem dedup_desc_eq_self : ∀ (xs : List ℚ), List.Pairwise (· > ·) xs →
    dedup_desc xs none = xs ∧
      ∀ l : ℚ, (∀ y ∈ xs, y < l) → dedup_desc xs (some l) = xs := by
  intro xs
  induction xs with
  | nil => exact fun _ => ⟨rfl, fun _ _ => rfl⟩
  | cons x t ih =>
    intro hp
    have hhead := (List.pairwise_cons.1 hp).1
    have ht := (List.pairwise_cons.1 hp).2
    have htail : dedup_desc t (some x) = t := (ih ht).2 x hhead
    constructor
    · simp only [dedup_desc]
      rw [htail]
    · intro l hl
      simp only [dedup_desc]
      rw [if_pos (hl x (List.mem_cons_self _ _)), htail]

theorem _order_tps_short_eq (xs : List ℚ) (h : xs ≠ []) :
    _order_tps "SHORT" xs =
      (dedup_desc ((xs.map round4).insertionSort (· ≥ ·)) none).take 3 := by
  unfold _order_tps
  rw [if_neg h]
  dsimp only
  rw [if_neg (by simp [h]), if_neg (by decide)]

theorem _order_tps_short_mem (xs : List ℚ) (y : ℚ)
    (hy : y ∈ _order_tps "SHORT" xs) : ∃ x ∈ xs, y = round4 x := by
  by_cases h : xs = []
  · subst h
    simp [_order_tps] at hy
  · rw [_order_tps_short_eq xs h] at hy
    have h1 := List.take_subset 3 _ hy
    have h2 := mem_dedup_desc _ _ _ h1
    have h3 : y ∈ xs.map round4 :=
      (List.perm_insertionSort (· ≥ ·) (xs.map round4)).mem_iff.1 h2
    rcases List.mem_map.1 h3 with ⟨x, hx, hxy⟩
    exact ⟨x, hx, hxy.symm⟩

theorem _order_tps_short_pairwise (xs : List ℚ) :
    List.Pairwise (· > ·) (_order_tps "SHORT" xs) := by
  by_cases h : xs = []
  · subst h
    simp [_order_tps]
  · rw [_order_tps_short_eq xs h]
    refine List.Pairwise.sublist (List.take_sublist _ _) ?_
    exact dedup_desc_pairwise _ (List.sorted_insertionSort (· ≥ ·) _)

theorem _order_tps_short_len (xs : List ℚ) :
    (_order_tps "SHORT" xs).length ≤ 3 := by
  by_cases h : xs = []
  · subst h
    simp [_order_tps]
  · rw [_order_tps_short_eq xs h]
    exact List.length_take_le _ _

theorem _order_tps_short_id (l : List ℚ) (hp : List.Pairwise (· > ·) l)
    (h4 : ∀ y ∈ l, round4 y = y) (hl : l.length ≤ 3) :
    _order_tps "SHORT" l = l := by
  by_cases h : l = []
  · subst h
    simp [_order_tps]
  · rw [_order_tps_short_eq l h, map_round4_id l h4,
      List.Sorted.insertionSort_eq (hp.imp le_of_lt),
      (dedup_desc_eq_self l hp).1]
    exact List.take_of_length_le hl

theorem _order_tps_short_head (xs : List ℚ) (h : xs ≠ []) :
    ∃ h0 t0, _order_tps "SHORT" xs = h0 :: t0 ∧ (∃ x ∈ xs, h0 = round4 x) ∧
      ∀ x ∈ xs, round4 x ≤ h0 := by
  rw [_order_tps_short_eq xs h]
  have hperm := List.perm_insertionSort (· ≥ ·) (xs.map round4)
  have hsorted := List.sorted_insertionSort (· ≥ ·) (xs.map round4)
  cases hsl : (xs.map round4).insertionSort (· ≥ ·) with
  | nil =>
    exfalso
    have hh := hperm.length_eq
    rw [hsl] at hh
    simp only [List.length_nil, List.length_map] at hh
    exact h (List.eq_nil_of_length_eq_zero hh.symm)
  | cons h0 t =>
    refine ⟨h0, (dedup_desc t (some h0)).take 2, ?_, ?_, ?_⟩
    · simp only [dedup_desc]
      rfl
    · have : h0 ∈ xs.map round4 := by
        rw [← hperm.mem_iff, hsl]
        exact List.mem_cons_self _ _
      rcases List.mem_map.1 this with ⟨x, hx, hxy⟩
      exact ⟨x, hx, hxy.symm⟩
    · intro x hx
      have hmem : round4 x ∈ (h0 :: t) := by
        rw [← hsl, hperm.mem_iff]
        exact List.mem_map_of_mem round4 hx
      rcases List.mem_cons.1 hmem with heq | hmem2
      · rw [heq]
      · rw [hsl] at hsorted
        exact (List.pairwise_cons.1 hsorted).1 _ hmem2

/-! ### The `_tp_guard` padding loop -/

theorem round4_fixed_exists {y : ℚ} (h : round4 y = y) :
    ∃ my : ℤ, y = (my : ℚ)/10000 := by
  refine ⟨rhe (y * 10000), ?_⟩
  conv_lhs => rw [← h]
  rfl

theorem pad_base_of_reverse {keep : List ℚ} {a : ℚ} {rest : List ℚ} (entry : ℚ)
    (hrev : keep.reverse = a :: rest) : pad_base entry keep = a := by
  unfold pad_base
  rw [← List.head?_reverse, hrev]
  rfl

theorem pad_step_long_ge (entry gap : ℚ) (keep : List ℚ) :
    gap ≤ pad_step_long entry gap keep := by
  unfold pad_step_long
  cases keep.reverse with
  | nil => exact le_refl _
  | cons a rest =>
    cases rest with
    | nil => exact le_max_left _ _
    | cons b r2 => exact le_max_left _ _

theorem pad_step_short_ge (entry gap : ℚ) (keep : List ℚ) :
    gap ≤ pad_step_short entry gap keep := by
  unfold pad_step_short
  cases keep.reverse with
  | nil => exact le_refl _
  | cons a rest =>
    cases rest with
    | nil => exact le_max_left _ _
    | cons b r2 => exact le_max_left _ _

theorem tp_pad_long_length_ge (entry gap : ℚ) :
    ∀ (fuel : Nat) (keep : List ℚ),
      min 3 (keep.length + fuel) ≤ (tp_pad_long entry gap fuel keep).length := by
  intro fuel
  induction fuel with
  | zero =>
    intro keep
    simp only [tp_pad_long]
    omega
  | succ n ih =>
    intro keep
    simp only [tp_pad_long]
    by_cases hlen : keep.length < 3
    · rw [if_pos hlen]
      have := ih (keep ++
        [round4 (pad_base entry keep + pad_step_long entry gap keep)])
      simp only [List.length_append, List.length_singleton] at this
      omega
    · rw [if_neg hlen]
      omega

theorem tp_pad_short_length_ge (entry gap : ℚ) :
    ∀ (fuel : Nat) (keep : List ℚ),
      min 3 (keep.length + fuel) ≤ (tp_pad_short entry gap fuel keep).length := by
  intro fuel
  induction fuel with
  | zero =>
    intro keep
    simp only [tp_pad_short]
    omega
  | succ n ih =>
    intro keep
    simp only [tp_pad_short]
    by_cases hlen : keep.length < 3
    · rw [if_pos hlen]
      have := ih (keep ++
        [round4 (pad_base entry keep - pad_step_short entry gap keep)])
      simp only [List.length_append, List.length_singleton] at this
      omega
    · rw [if_neg hlen]
      omega

theorem tp_pad_long_strict (entry gap : ℚ) (m : ℤ) (hm : entry = (m : ℚ)/10000)
    (hg : 1/20000 < gap) :
    ∀ (fuel : Nat) (keep : List ℚ),
      List.Pairwise (· < ·) keep →
      (∀ y ∈ keep, entry + 1/10000 ≤ y) →
      (∀ y ∈ keep, round4 y = y) →
      keep.length ≤ 3 →
      List.Pairwise (· < ·) (tp_pad_long entry gap fuel keep) ∧
      (∀ y ∈ tp_pad_long entry gap fuel keep, entry + 1/10000 ≤ y) ∧
      (∀ y ∈ tp_pad_long entry gap fuel keep, round4 y = y) ∧
      (tp_pad_long entry gap fuel keep).length = min 3 (keep.length + fuel) := by
  intro fuel
  induction fuel with
  | zero =>
    intro keep h1 h2 h3 h4
    refine ⟨h1, h2, h3, ?_⟩
    simp only [tp_pad_long]
    omega
  | succ n ih =>
    intro keep h1 h2 h3 h4
    simp only [tp_pad_long]
    by_cases hlen : keep.length < 3
    · rw [if_pos hlen]
      -- identify base and step via the reversed list
      cases hrev : keep.reverse with
      | nil =>
        have hkeep : keep = [] := by
          have := congrArg List.reverse hrev
          simpa using this
        subst hkeep
        rw [show pad_base entry ([] : List ℚ) = entry from rfl,
          show pad_step_long entry gap ([] : List ℚ) = gap from rfl,
          List.nil_append]
        have ha1 : entry + 1/10000 ≤ round4 (entry + gap) := round4_step_up m hm hg
        have h5 := ih [round4 (entry + gap)]
          (List.pairwise_singleton _ _)
          (by
            intro y hy
            simp only [List.mem_singleton] at hy
            subst hy
            exact ha1)
          (by
            intro y hy
            simp only [List.mem_singleton] at hy
            subst hy
            exact round4_idem _)
          (by simp)
        refine ⟨h5.1, h5.2.1, h5.2.2.1, ?_⟩
        rw [h5.2.2.2]
        simp only [List.length_singleton, List.length_nil]
        omega
      | cons a rest =>
        have hmema : a ∈ keep := by
          rw [← List.mem_reverse, hrev]
          exact List.mem_cons_self _ _
        have hamax : ∀ y ∈ keep, y ≤ a := by
          intro y hy
          have hpr : List.Pairwise (fun x z => z < x) keep.reverse :=
            List.pairwise_reverse.2 h1
          rw [hrev] at hpr
          rw [← List.mem_reverse, hrev] at hy
          rcases List.mem_cons.1 hy with rfl | hy2
          · exact le_refl _
          · exact le_of_lt ((List.pairwise_cons.1 hpr).1 y hy2)
        have h4a : round4 a = a := h3 a hmema
        rcases round4_fixed_exists h4a with ⟨ma, hma⟩
        rw [pad_base_of_reverse entry hrev]
        set stp := pad_step_long entry gap keep with hstp
        have hstep2 : gap ≤ stp := pad_step_long_ge entry gap keep
        have hup : a + 1/10000 ≤ round4 (a + stp) :=
          round4_step_up ma hma (lt_of_lt_of_le hg hstep2)
        have hbig : ∀ y ∈ keep, y < round4 (a + stp) := by
          intro y hy
          exact lt_of_le_of_lt (hamax y hy) (by linarith)
        have h5 := ih (keep ++ [round4 (a + stp)])
          (by
            rw [List.pairwise_append]
            refine ⟨h1, List.pairwise_singleton _ _, ?_⟩
            intro y hy z hz
            simp only [List.mem_singleton] at hz
            subst hz
            exact hbig y hy)
          (by
            intro y hy
            rcases List.mem_append.1 hy with hy1 | hy1
            · exact h2 y hy1
            · simp only [List.mem_singleton] at hy1
              subst hy1
              have := h2 a hmema
              linarith)
          (by
            intro y hy
            rcases List.mem_append.1 hy with hy1 | hy1
            · exact h3 y hy1
            · simp only [List.mem_singleton] at hy1
              subst hy1
              exact round4_idem _)
          (by
            simp only [List.length_append, List.length_singleton]
            omega)
        refine ⟨h5.1, h5.2.1, h5.2.2.1, ?_⟩
        rw [h5.2.2.2]
        simp only [List.length_append, List.length_singleton]
        omega
    · rw [if_neg hlen]
      refine ⟨h1, h2, h3, ?_⟩
      omega

theorem tp_pad_short_strict (entry gap : ℚ) (m : ℤ) (hm : entry = (m : ℚ)/10000)
    (hg : 1/20000 < gap) :
    ∀ (fuel : Nat) (keep : List ℚ),
      List.Pairwise (· > ·) keep →
      (∀ y ∈ keep, y ≤ entry - 1/10000) →
      (∀ y ∈ keep, round4 y = y) →
      keep.length ≤ 3 →
      List.Pairwise (· > ·) (tp_pad_short entry gap fuel keep) ∧
      (∀ y ∈ tp_pad_short entry gap fuel keep, y ≤ entry - 1/10000) ∧
      (∀ y ∈ tp_pad_short entry gap fuel keep, round4 y = y) ∧
      (tp_pad_short entry gap fuel keep).length = min 3 (keep.length + fuel) := by
  intro fuel
  induction fuel with
  | zero =>
    intro keep h1 h2 h3 h4
    refine ⟨h1, h2, h3, ?_⟩
    simp only [tp_pad_short]
    omega
  | succ n ih =>
    intro keep h1 h2 h3 h4
    simp only [tp_pad_short]
    by_cases hlen : keep.length < 3
    · rw [if_pos hlen]
      cases hrev : keep.reverse with
      | nil =>
        have hkeep : keep = [] := by
          have := congrArg List.reverse hrev
          simpa using this
        subst hkeep
        rw [show pad_base entry ([] : List ℚ) = entry from rfl,
          show pad_step_short entry gap ([] : List ℚ) = gap from rfl,
          List.nil_append]
        have ha1 : round4 (entry - gap) ≤ entry - 1/10000 := round4_step_down m hm hg
        have h5 := ih [round4 (entry - gap)]
          (List.pairwise_singleton _ _)
          (by
            intro y hy
            simp only [List.mem_singleton] at hy
            subst hy
            exact ha1)
          (by
            intro y hy
            simp only [List.mem_singleton] at hy
            subst hy
            exact round4_idem _)
          (by simp)
        refine ⟨h5.1, h5.2.1, h5.2.2.1, ?_⟩
        rw [h5.2.2.2]
        simp only [List.length_singleton, List.length_nil]
        omega
      | cons a rest =>
        have hmema : a ∈ keep := by
          rw [← List.mem_reverse, hrev]
          exact List.mem_cons_self _ _
        have hamin : ∀ y ∈ keep, a ≤ y := by
          intro y hy
          have hpr : List.Pairwise (fun x z => x < z) keep.reverse :=
            List.pairwise_reverse.2 h1
          rw [hrev] at hpr
          rw [← List.mem_reverse, hrev] at hy
          rcases List.mem_cons.1 hy with rfl | hy2
          · exact le_refl _
          · exact le_of_lt ((List.pairwise_cons.1 hpr).1 y hy2)
        have h4a : round4 a = a := h3 a hmema
        rcases round4_fixed_exists h4a with ⟨ma, hma⟩
        rw [pad_base_of_reverse entry hrev]
        set stp := pad_step_short entry gap keep with hstp
        have hstep2 : gap ≤ stp := pad_step_short_ge entry gap keep
        have hdn : round4 (a - stp) ≤ a - 1/10000 :=
          round4_step_down ma hma (lt_of_lt_of_le hg hstep2)
        have hsmall : ∀ y ∈ keep, round4 (a - stp) < y := by
          intro y hy
          exact lt_of_lt_of_le (by linarith [hamin y hy]) (hamin y hy)
        have h5 := ih (keep ++ [round4 (a - stp)])
          (by
            rw [List.pairwise_append]
            refine ⟨h1, List.pairwise_singleton _ _, ?_⟩
            intro y hy z hz
            simp only [List.mem_singleton] at hz
            subst hz
            exact hsmall y hy
            )
          (by
            intro y hy
            rcases List.mem_append.1 hy with hy1 | hy1
            · exact h2 y hy1
            · simp only [List.mem_singleton] at hy1
              subst hy1
              have := h2 a hmema
              linarith)
          (by
            intro y hy
            rcases List.mem_append.1 hy with hy1 | hy1
            · exact h3 y hy1
            · simp only [List.mem_singleton] at hy1
              subst hy1
              exact round4_idem _)
          (by
            simp only [List.length_append, List.length_singleton]
            omega)
        refine ⟨h5.1, h5.2.1, h5.2.2.1, ?_⟩
        rw [h5.2.2.2]
        simp only [List.length_append, List.length_singleton]
        omega
    · rw [if_neg hlen]
      refine ⟨h1, h2, h3, ?_⟩
      omega

/-- Core of `_tp_guard` for LONG after the filter stage: an ordered, 4dp,
`entry`-clear kept list padded and re-ordered yields exactly three strictly
ascending targets above entry. -/
theorem guard_long_core (entry gap : ℚ) (m : ℤ) (hm : entry = (m : ℚ)/10000)
    (hg : 1/20000 < gap) (kept : List ℚ)
    (hk1 : List.Pairwise (· < ·) kept)
    (hk2 : ∀ y ∈ kept, entry + 1/10000 ≤ y)
    (hk3 : ∀ y ∈ kept, round4 y = y)
    (hk4 : kept.length ≤ 3) :
    (_order_tps "LONG" ((tp_pad_long entry gap 3 kept).take 3)).length = 3 ∧
    List.Pairwise (· < ·) (_order_tps "LONG" ((tp_pad_long entry gap 3 kept).take 3)) ∧
    ∀ y ∈ _order_tps "LONG" ((tp_pad_long entry gap 3 kept).take 3),
      entry + 1/10000 ≤ y ∧ round4 y = y := by
  obtain ⟨p1, p2, p3, p4⟩ := tp_pad_long_strict entry gap m hm hg 3 kept hk1 hk2 hk3 hk4
  have hlen3 : (tp_pad_long entry gap 3 kept).length = 3 := by omega
  have htake : (tp_pad_long entry gap 3 kept).take 3 = tp_pad_long entry gap 3 kept :=
    List.take_of_length_le (by omega)
  rw [htake, _order_tps_long_id _ p1 p3 (by omega)]
  exact ⟨hlen3, p1, fun y hy => ⟨p2 y hy, p3 y hy⟩⟩

/-- Core of `_tp_guard` for SHORT after the filter stage. -/
theorem guard_short_core (entry gap : ℚ) (m : ℤ) (hm : entry = (m : ℚ)/10000)
    (hg : 1/20000 < gap) (kept : List ℚ)
    (hk1 : List.Pairwise (· > ·) kept)
    (hk2 : ∀ y ∈ kept, y ≤ entry - 1/10000)
    (hk3 : ∀ y ∈ kept, round4 y = y)
    (hk4 : kept.length ≤ 3) :
    (_order_tps "SHORT" ((tp_pad_short entry gap 3 kept).take 3)).length = 3 ∧
    List.Pairwise (· > ·) (_order_tps "SHORT" ((tp_pad_short entry gap 3 kept).take 3)) ∧
    ∀ y ∈ _order_tps "SHORT" ((tp_pad_short entry gap 3 kept).take 3),
      y ≤ entry - 1/10000 ∧ round4 y = y := by
  obtain ⟨p1, p2, p3, p4⟩ := tp_pad_short_strict entry gap m hm hg 3 kept hk1 hk2 hk3 hk4
  have hlen3 : (tp_pad_short entry gap 3 kept).length = 3 := by omega
  have htake : (tp_pad_short entry gap 3 kept).take 3 = tp_pad_short entry gap 3 kept :=
    List.take_of_length_le (by omega)
  rw [htake, _order_tps_short_id _ p1 p3 (by omega)]
  exact ⟨hlen3, p1, fun y hy => ⟨p2 y hy, p3 y hy⟩⟩

theorem tp_guard_complete_long (entry sl atr : ℚ) (tps : List ℚ) (m : ℤ)
    (hm : entry = (m : ℚ)/10000)
    (hg : 1/20000 < max (0.6 * atr) (0.8 * max (1/1000000000) |entry - sl|))
    (hin : ∀ x ∈ tps, x ≤ entry + 1/100000000 ∨ entry + 1/20000 < x) :
    (_tp_guard "LONG" entry sl tps atr).length = 3 ∧
    List.Pairwise (· < ·) (_tp_guard "LONG" entry sl tps atr) ∧
    ∀ y ∈ _tp_guard "LONG" entry sl tps atr, entry + 1/10000 ≤ y ∧ round4 y = y := by
  have hkmem : ∀ y ∈ _order_tps "LONG"
      (tps.filter (fun x => decide (entry + 1/100000000 < x))),
      entry + 1/10000 ≤ y := by
    intro y hy
    rcases _order_tps_long_mem _ _ hy with ⟨x, hx, rfl⟩
    rcases List.mem_filter.1 hx with ⟨hxmem, hxc⟩
    have hxgt : entry + 1/100000000 < x := of_decide_eq_true hxc
    rcases hin x hxmem with hle | hlt
    · exact absurd hle (by linarith)
    · have hxe : entry + (x - entry) = x := by ring
      rw [← hxe]
      exact round4_step_up m hm (by linarith)
  have core := guard_long_core entry
    (max (0.6 * atr) (0.8 * max (1/1000000000) |entry - sl|)) m hm hg
    (_order_tps "LONG" (tps.filter (fun x => decide (entry + 1/100000000 < x))))
    (_order_tps_long_pairwise _)
    hkmem
    (fun y hy => by
      rcases _order_tps_long_mem _ _ hy with ⟨x, _, rfl⟩
      exact round4_idem x)
    (_order_tps_long_len _)
  unfold _tp_guard
  dsimp only
  rw [if_pos (show pyUpper "LONG" = "LONG" from by decide)]
  exact core

theorem tp_guard_complete_short (entry sl atr : ℚ) (tps : List ℚ) (m : ℤ)
    (hm : entry = (m : ℚ)/10000)
    (hg : 1/20000 < max (0.6 * atr) (0.8 * max (1/1000000000) |entry - sl|))
    (hin : ∀ x ∈ tps, entry - 1/100000000 ≤ x ∨ x < entry - 1/20000) :
    (_tp_guard "SHORT" entry sl tps atr).length = 3 ∧
    List.Pairwise (· > ·) (_tp_guard "SHORT" entry sl tps atr) ∧
    ∀ y ∈ _tp_guard "SHORT" entry sl tps atr, y ≤ entry - 1/10000 ∧ round4 y = y := by
  have hkmem : ∀ y ∈ _order_tps "SHORT"
      (tps.filter (fun x => decide (x < entry - 1/100000000))),
      y ≤ entry - 1/10000 := by
    intro y hy
    rcases _order_tps_short_mem _ _ hy with ⟨x, hx, rfl⟩
    rcases List.mem_filter.1 hx with ⟨hxmem, hxc⟩
    have hxlt : x < entry - 1/100000000 := of_decide_eq_true hxc
    rcases hin x hxmem with hge | hlt
    · exact absurd hge (by linarith)
    · have hxe : entry - (entry - x) = x := by ring
      rw [← hxe]
      exact round4_step_down m hm (by linarith)
  have core := guard_short_core entry
    (max (0.6 * atr) (0.8 * max (1/1000000000) |entry - sl|)) m hm hg
    (_order_tps "SHORT" (tps.filter (fun x => decide (x < entry - 1/100000000))))
    (_order_tps_short_pairwise _)
    hkmem
    (fun y hy => by
      rcases _order_tps_short_mem _ _ hy with ⟨x, _, rfl⟩
      exact round4_idem x)
    (_order_tps_short_len _)
  unfold _tp_guard
  dsimp only
  rw [if_neg (show ¬(pyUpper "SHORT" = "LONG") from by decide)]
  exact core

/-- **C9** (corrected): `_tp_guard` returns exactly 3 strictly monotonic
take-profits strictly beyond entry, each on the 4-decimal grid, provided
(i) entry itself lies on the 4-decimal grid, (ii) the padding step
`max(0.6·atr, 0.8·R)` exceeds half a grid step (1/20000), and (iii) every
input TP is either on the wrong side of the entry filter (≤ entry + 1e-8,
resp. ≥ entry − 1e-8) or clear of entry by more than half a grid step.
Without (ii) the padded values can all round back onto entry and collapse
(see the counterexample). -/
theorem C9_tp_guard_completion (entry sl atr : ℚ) (tps : List ℚ) (m : ℤ)
    (hm : entry = (m : ℚ)/10000)
    (hg : 1/20000 < max (0.6 * atr) (0.8 * max (1/1000000000) |entry - sl|)) :
    ((∀ x ∈ tps, x ≤ entry + 1/100000000 ∨ entry + 1/20000 < x) →
      (_tp_guard "LONG" entry sl tps atr).length = 3 ∧
      List.Pairwise (· < ·) (_tp_guard "LONG" entry sl tps atr) ∧
      ∀ y ∈ _tp_guard "LONG" entry sl tps atr, entry < y ∧ round4 y = y) ∧
    ((∀ x ∈ tps, entry - 1/100000000 ≤ x ∨ x < entry - 1/20000) →
      (_tp_guard "SHORT" entry sl tps atr).length = 3 ∧
      List.Pairwise (· > ·) (_tp_guard "SHORT" entry sl tps atr) ∧
      ∀ y ∈ _tp_guard "SHORT" entry sl tps atr, y < entry ∧ round4 y = y) := by
  constructor
  · intro hin
    obtain ⟨h1, h2, h3⟩ := tp_guard_complete_long entry sl atr tps m hm hg hin
    exact ⟨h1, h2, fun y hy => ⟨by linarith [(h3 y hy).1], (h3 y hy).2⟩⟩
  · intro hin
    obtain ⟨h1, h2, h3⟩ := tp_guard_complete_short entry sl atr tps m hm hg hin
    exact ⟨h1, h2, fun y hy => ⟨by linarith [(h3 y hy).1], (h3 y hy).2⟩⟩

theorem C9_tp_guard_completion_witness :
    (_tp_guard "LONG" 100 99 [] 0).length = 3 ∧
    (_tp_guard "SHORT" 100 101 [] 0).length = 3 := by
  have hL := C9_tp_guard_completion 100 99 0 [] 1000000 (by norm_num)
    (by
      rw [show |(100 : ℚ) - 99| = 1 from by norm_num]
      norm_num)
  have hS := C9_tp_guard_completion 100 101 0 [] 1000000 (by norm_num)
    (by
      rw [show |(100 : ℚ) - 101| = 1 from by rw [abs_sub_comm]; norm_num]
      norm_num)
  exact ⟨(hL.1 (by simp)).1, (hS.2 (by simp)).1⟩

/-- C9 counterexample: with `entry = sl` and `atr = 0` the padding step is
`0.8e-9`, every padded value rounds back to the entry, and the dedup stage
collapses the ladder to the single price `[100.0]` — not three targets and
not strictly beyond entry. -/
theorem C9_counterexample : _tp_guard "LONG" 100 100 [] 0 = [100] := by
  have hL : pyUpper "LONG" = "LONG" := by decide
  unfold _tp_guard
  dsimp only
  rw [if_pos hL]
  norm_num [_order_tps, tp_pad_long, pad_base, pad_step_long, dedup_asc,
    round4, rhe, hL, List.insertionSort, List.orderedInsert]
  simp

/-! ### Head preservation through `_enforce_min_r` and `_tp_guard` (for C5) -/

theorem le_max_add {a b x : ℚ} (g : ℚ) (hg : 0 ≤ g) (h : a ≤ b) :
    a ≤ max (b + g) x :=
  le_trans (by linarith) (le_max_left _ _)

theorem min_sub_le {a b x : ℚ} (g : ℚ) (hg : 0 ≤ g) (h : b ≤ a) :
    min (b - g) x ≤ a :=
  le_trans (min_le_left _ _) (by linarith)

/-- When the padding step is nonnegative, the LONG padding loop appends only
values at/above the current last element: the head, a lower bound by the head,
and the 4dp property are preserved. -/
theorem tp_pad_long_head_bound (entry gap : ℚ) (hgap : 0 ≤ gap) :
    ∀ (fuel : Nat) (keep : List ℚ) (h0 : ℚ),
      keep.head? = some h0 →
      (∀ y ∈ keep, h0 ≤ y) →
      (∀ y ∈ keep, round4 y = y) →
      (tp_pad_long entry gap fuel keep).head? = some h0 ∧
      (∀ y ∈ tp_pad_long entry gap fuel keep, h0 ≤ y) ∧
      (∀ y ∈ tp_pad_long entry gap fuel keep, round4 y = y) := by
  intro fuel
  induction fuel with
  | zero =>
    intro keep h0 hh hmin h4
    exact ⟨hh, hmin, h4⟩
  | succ n ih =>
    intro keep h0 hh hmin h4
    simp only [tp_pad_long]
    by_cases hlen : keep.length < 3
    · rw [if_pos hlen]
      cases hrev : keep.reverse with
      | nil =>
        exfalso
        have hkeep : keep = [] := by
          have := congrArg List.reverse hrev
          simpa using this
        subst hkeep
        simp at hh
      | cons a rest =>
        have hmema : a ∈ keep := by
          rw [← List.mem_reverse, hrev]
          exact List.mem_cons_self _ _
        rw [pad_base_of_reverse entry hrev]
        set stp := pad_step_long entry gap keep with hstp
        have hstep2 : gap ≤ stp := pad_step_long_ge entry gap keep
        have h4a : round4 a = a := h4 a hmema
        have hup : a ≤ round4 (a + stp) := by
          calc a = round4 a := h4a.symm
            _ ≤ round4 (a + stp) := round4_mono (by linarith)
        apply ih
        · cases keep with
          | nil => simp at hh
          | cons k ks => simpa using hh
        · intro y hy
          rcases List.mem_append.1 hy with hy1 | hy1
          · exact hmin y hy1
          · simp only [List.mem_singleton] at hy1
            subst hy1
            exact le_trans (hmin a hmema) hup
        · intro y hy
          rcases List.mem_append.1 hy with hy1 | hy1
          · exact h4 y hy1
          · simp only [List.mem_singleton] at hy1
            subst hy1
            exact round4_idem _
    · rw [if_neg hlen]
      exact ⟨hh, hmin, h4⟩

/-- SHORT mirror of `tp_pad_long_head_bound`. -/
theorem tp_pad_short_head_bound (entry gap : ℚ) (hgap : 0 ≤ gap) :
    ∀ (fuel : Nat) (keep : List ℚ) (h0 : ℚ),
      keep.head? = some h0 →
      (∀ y ∈ keep, y ≤ h0) →
      (∀ y ∈ keep, round4 y = y) →
      (tp_pad_short entry gap fuel keep).head? = some h0 ∧
      (∀ y ∈ tp_pad_short entry gap fuel keep, y ≤ h0) ∧
      (∀ y ∈ tp_pad_short entry gap fuel keep, round4 y = y) := by
  intro fuel
  induction fuel with
  | zero =>
    intro keep h0 hh hmax h4
    exact ⟨hh, hmax, h4⟩
  | succ n ih =>
    intro keep h0 hh hmax h4
    simp only [tp_pad_short]
    by_cases hlen : keep.length < 3
    · rw [if_pos hlen]
      cases hrev : keep.reverse with
      | nil =>
        exfalso
        have hkeep : keep = [] := by
          have := congrArg List.reverse hrev
          simpa using this
        subst hkeep
        simp at hh
      | cons a rest =>
        have hmema : a ∈ keep := by
          rw [← List.mem_reverse, hrev]
          exact List.mem_cons_self _ _
        rw [pad_base_of_reverse entry hrev]
        set stp := pad_step_short entry gap keep with hstp
        have hstep2 : gap ≤ stp := pad_step_short_ge entry gap keep
        have h4a : round4 a = a := h4 a hmema
        have hdn : round4 (a - stp) ≤ a := by
          calc round4 (a - stp) ≤ round4 a := round4_mono (by linarith)
            _ = a := h4a
        apply ih
        · cases keep with
          | nil => simp at hh
          | cons k ks => simpa using hh
        · intro y hy
          rcases List.mem_append.1 hy with hy1 | hy1
          · exact hmax y hy1
          · simp only [List.mem_singleton] at hy1
            subst hy1
            exact le_trans hdn (hmax a hmema)
        · intro y hy
          rcases List.mem_append.1 hy with hy1 | hy1
          · exact h4 y hy1
          · simp only [List.mem_singleton] at hy1
            subst hy1
            exact round4_idem _
    · rw [if_neg hlen]
      exact ⟨hh, hmax, h4⟩

/-- Ordering a three-element ladder whose first element is a fixed 4dp point
dominated by the other two keeps that point as the head. -/
theorem order3_long_head (a b2 b3 : ℚ) (hra : round4 a = a)
    (hab2 : a ≤ b2) (hab3 : a ≤ b3) :
    ∃ g2 t2, _order_tps "LONG" [a, b2, b3] = g2 :: t2 ∧ g2 = a ∧
      List.Pairwise (· < ·) (g2 :: t2) ∧
      (∀ y ∈ g2 :: t2, round4 y = y) ∧
      (g2 :: t2).length ≤ 3 ∧
      (∀ y ∈ g2 :: t2, g2 ≤ y) := by
  obtain ⟨g2, t2, hout, ⟨x, hx, hg2⟩, hmin⟩ := _order_tps_long_head [a, b2, b3] (by simp)
  have hg2a : g2 = a := by
    have h1 : g2 ≤ a := by
      have := hmin a (by simp)
      rwa [hra] at this
    have h2 : a ≤ g2 := by
      simp only [List.mem_cons, List.not_mem_nil, or_false] at hx
      rcases hx with rfl | rfl | rfl
      · rw [hg2, hra]
      · rw [hg2, ← hra]
        exact round4_mono hab2
      · rw [hg2, ← hra]
        exact round4_mono hab3
    linarith
  refine ⟨g2, t2, hout, hg2a, ?_, ?_, ?_, ?_⟩
  · rw [← hout]
    exact _order_tps_long_pairwise _
  · intro y hy
    rw [← hout] at hy
    rcases _order_tps_long_mem _ _ hy with ⟨x', _, rfl⟩
    exact round4_idem x'
  · rw [← hout]
    exact _order_tps_long_len _
  · intro y hy
    rw [← hout] at hy
    rcases _order_tps_long_mem _ _ hy with ⟨x', hx', rfl⟩
    exact hmin x' hx'

/-- SHORT mirror of `order3_long_head`. -/
theorem order3_short_head (a b2 b3 : ℚ) (hra : round4 a = a)
    (hab2 : b2 ≤ a) (hab3 : b3 ≤ a) :
    ∃ g2 t2, _order_tps "SHORT" [a, b2, b3] = g2 :: t2 ∧ g2 = a ∧
      List.Pairwise (· > ·) (g2 :: t2) ∧
      (∀ y ∈ g2 :: t2, round4 y = y) ∧
      (g2 :: t2).length ≤ 3 ∧
      (∀ y ∈ g2 :: t2, y ≤ g2) := by
  obtain ⟨g2, t2, hout, ⟨x, hx, hg2⟩, hmax⟩ := _order_tps_short_head [a, b2, b3] (by simp)
  have hg2a : g2 = a := by
    have h1 : a ≤ g2 := by
      have := hmax a (by simp)
      rwa [hra] at this
    have h2 : g2 ≤ a := by
      simp only [List.mem_cons, List.not_mem_nil, or_false] at hx
      rcases hx with rfl | rfl | rfl
      · rw [hg2, hra]
      · rw [hg2, ← hra]
        exact round4_mono hab2
      · rw [hg2, ← hra]
        exact round4_mono hab3
    linarith
  refine ⟨g2, t2, hout, hg2a, ?_, ?_, ?_, ?_⟩
  · rw [← hout]
    exact _order_tps_short_pairwise _
  · intro y hy
    rw [← hout] at hy
    rcases _order_tps_short_mem _ _ hy with ⟨x', _, rfl⟩
    exact round4_idem x'
  · rw [← hout]
    exact _order_tps_short_len _
  · intro y hy
    rw [← hout] at hy
    rcases _order_tps_short_mem _ _ hy with ⟨x', hx', rfl⟩
    exact hmax x' hx'

/-- The LONG stretch branch keeps `round4(entry+need)` as the ladder head. -/
theorem stretch_tps_long_head (entry need gap : ℚ) (tps : List ℚ) (hgpos : 0 < gap) :
    ∃ g2 t2, stretch_tps_long entry need gap tps = g2 :: t2 ∧
      g2 = round4 (entry + need) ∧
      List.Pairwise (· < ·) (g2 :: t2) ∧
      (∀ y ∈ g2 :: t2, round4 y = y) ∧
      (g2 :: t2).length ≤ 3 ∧
      (∀ y ∈ g2 :: t2, g2 ≤ y) := by
  unfold stretch_tps_long
  dsimp only
  exact order3_long_head _ _ _ (round4_idem _)
    (le_max_add gap hgpos.le (le_refl _))
    (le_max_add gap hgpos.le (le_max_add gap hgpos.le (le_refl _)))

/-- The SHORT stretch branch keeps `round4(entry-need)` as the ladder head. -/
theorem stretch_tps_short_head (entry need gap : ℚ) (tps : List ℚ) (hgpos : 0 < gap) :
    ∃ g2 t2, stretch_tps_short entry need gap tps = g2 :: t2 ∧
      g2 = round4 (entry - need) ∧
      List.Pairwise (· > ·) (g2 :: t2) ∧
      (∀ y ∈ g2 :: t2, round4 y = y) ∧
      (g2 :: t2).length ≤ 3 ∧
      (∀ y ∈ g2 :: t2, y ≤ g2) := by
  unfold stretch_tps_short
  dsimp only
  exact order3_short_head _ _ _ (round4_idem _)
    (min_sub_le gap hgpos.le (le_refl _))
    (min_sub_le gap hgpos.le (min_sub_le gap hgpos.le (le_refl _)))

/-- `_enforce_min_r` (LONG) on a strictly ascending 4dp ladder: the output is
a nonempty strictly ascending 4dp ladder of at most 3, its head is its
minimum, all entries stay above `entry - 1/20000` when the input did, and the
head sits at least `need - (1/20000 + 1e-12)` from entry. -/
theorem enforce_first_long (cfg : Config) (entry sl atr : ℚ) (h0 : ℚ) (tr : List ℚ)
    (hp : List.Pairwise (· < ·) (h0 :: tr))
    (h4 : ∀ y ∈ h0 :: tr, round4 y = y)
    (hl : (h0 :: tr).length ≤ 3)
    (hlow : ∀ y ∈ h0 :: tr, entry - 1/20000 ≤ y)
    (hMR : 0 ≤ cfg.MIN_R_MULT) (hT1 : 0 ≤ cfg.TP1_ABS) :
    ∃ g2 t2, _enforce_min_r cfg entry sl (h0 :: tr) "LONG" atr = g2 :: t2 ∧
      List.Pairwise (· < ·) (g2 :: t2) ∧
      (∀ y ∈ g2 :: t2, round4 y = y) ∧
      (g2 :: t2).length ≤ 3 ∧
      (∀ y ∈ g2 :: t2, g2 ≤ y) ∧
      (∀ y ∈ g2 :: t2, entry - 1/20000 ≤ y) ∧
      min (cfg.MIN_R_MULT * max (1/1000000000) |entry - sl|) cfg.TP1_ABS
        - (1/20000 + 1/1000000000000) ≤ |g2 - entry| := by
  unfold _enforce_min_r
  dsimp only
  rw [show pyUpper "LONG" = "LONG" from by decide]
  set nd := min (cfg.MIN_R_MULT * max (1/1000000000) |entry - sl|) cfg.TP1_ABS with hnd
  have hnd0 : 0 ≤ nd := by
    rw [hnd]
    exact le_min (mul_nonneg hMR (le_trans (by norm_num) (le_max_left _ _))) hT1
  by_cases hc : nd ≤ |h0 - entry| + 1/1000000000000
  · rw [if_pos hc, _order_tps_long_id _ hp h4 hl]
    refine ⟨h0, tr, rfl, hp, h4, hl, ?_, hlow, ?_⟩
    · intro y hy
      rcases List.mem_cons.1 hy with rfl | hy2
      · exact le_refl _
      · exact le_of_lt ((List.pairwise_cons.1 hp).1 y hy2)
    · linarith
  · rw [if_neg hc, if_pos rfl]
    have hgpos : (0 : ℚ) < max (0.6 * atr) (0.8 * max (1/1000000000) |entry - sl|) := by
      have h1 : (1/1000000000 : ℚ) ≤ max (1/1000000000) |entry - sl| := le_max_left _ _
      have h2 : (0 : ℚ) < 0.8 * max (1/1000000000) |entry - sl| := by linarith
      exact lt_of_lt_of_le h2 (le_max_right _ _)
    obtain ⟨g2, t2, hout, hg2, hpp, h44, hll, hmm⟩ :=
      stretch_tps_long_head entry nd
        (max (0.6 * atr) (0.8 * max (1/1000000000) |entry - sl|)) (h0 :: tr) hgpos
    have hglow : entry + nd - 1/20000 ≤ g2 := by
      rw [hg2]
      exact le_round4 _
    refine ⟨g2, t2, hout, hpp, h44, hll, hmm, ?_, ?_⟩
    · intro y hy
      have := hmm y hy
      linarith
    · have h2 := le_abs_self (g2 - entry)
      linarith

/-- SHORT mirror of `enforce_first_long`. -/
theorem enforce_first_short (cfg : Config) (entry sl atr : ℚ) (h0 : ℚ) (tr : List ℚ)
    (hp : List.Pairwise (· > ·) (h0 :: tr))
    (h4 : ∀ y ∈ h0 :: tr, round4 y = y)
    (hl : (h0 :: tr).length ≤ 3)
    (hhigh : ∀ y ∈ h0 :: tr, y ≤ entry + 1/20000)
    (hMR : 0 ≤ cfg.MIN_R_MULT) (hT1 : 0 ≤ cfg.TP1_ABS) :
    ∃ g2 t2, _enforce_min_r cfg entry sl (h0 :: tr) "SHORT" atr = g2 :: t2 ∧
      List.Pairwise (· > ·) (g2 :: t2) ∧
      (∀ y ∈ g2 :: t2, round4 y = y) ∧
      (g2 :: t2).length ≤ 3 ∧
      (∀ y ∈ g2 :: t2, y ≤ g2) ∧
      (∀ y ∈ g2 :: t2, y ≤ entry + 1/20000) ∧
      min (cfg.MIN_R_MULT * max (1/1000000000) |entry - sl|) cfg.TP1_ABS
        - (1/20000 + 1/1000000000000) ≤ |g2 - entry| := by
  unfold _enforce_min_r
  dsimp only
  rw [show pyUpper "SHORT" = "SHORT" from by decide]
  set nd := min (cfg.MIN_R_MULT * max (1/1000000000) |entry - sl|) cfg.TP1_ABS with hnd
  have hnd0 : 0 ≤ nd := by
    rw [hnd]
    exact le_min (mul_nonneg hMR (le_trans (by norm_num) (le_max_left _ _))) hT1
  by_cases hc : nd ≤ |h0 - entry| + 1/1000000000000
  · rw [if_pos hc, _order_tps_short_id _ hp h4 hl]
    refine ⟨h0, tr, rfl, hp, h4, hl, ?_, hhigh, ?_⟩
    · intro y hy
      rcases List.mem_cons.1 hy with rfl | hy2
      · exact le_refl _
      · exact le_of_lt ((List.pairwise_cons.1 hp).1 y hy2)
    · linarith
  · rw [if_neg hc, if_neg (by decide)]
    have hgpos : (0 : ℚ) < max (0.6 * atr) (0.8 * max (1/1000000000) |entry - sl|) := by
      have h1 : (1/1000000000 : ℚ) ≤ max (1/1000000000) |entry - sl| := le_max_left _ _
      have h2 : (0 : ℚ) < 0.8 * max (1/1000000000) |entry - sl| := by linarith
      exact lt_of_lt_of_le h2 (le_max_right _ _)
    obtain ⟨g2, t2, hout, hg2, hpp, h44, hll, hmm⟩ :=
      stretch_tps_short_head entry nd
        (max (0.6 * atr) (0.8 * max (1/1000000000) |entry - sl|)) (h0 :: tr) hgpos
    have hghigh : g2 ≤ entry - nd + 1/20000 := by
      rw [hg2]
      exact le_trans (round4_le _) (by linarith)
    refine ⟨g2, t2, hout, hpp, h44, hll, hmm, ?_, ?_⟩
    · intro y hy
      have := hmm y hy
      linarith
    · have h2 : entry - g2 ≤ |g2 - entry| := by
        rw [abs_sub_comm]
        exact le_abs_self _
      linarith

/-- `_tp_guard` (LONG) on a strictly ascending 4dp ladder headed by its
minimum: the output is nonempty and its head loses at most half a grid step
of the input head's distance from entry. -/
theorem guard_first_long (entry sl atr : ℚ) (g2 : ℚ) (t2r : List ℚ)
    (hp : List.Pairwise (· < ·) (g2 :: t2r))
    (h4 : ∀ y ∈ g2 :: t2r, round4 y = y)
    (hl : (g2 :: t2r).length ≤ 3)
    (hmin : ∀ y ∈ g2 :: t2r, g2 ≤ y)
    (hlow0 : entry - 1/20000 ≤ g2) :
    ∃ g3 t3, _tp_guard "LONG" entry sl (g2 :: t2r) atr = g3 :: t3 ∧
      |g2 - entry| - 1/20000 ≤ |g3 - entry| := by
  have hL : pyUpper "LONG" = "LONG" := by decide
  unfold _tp_guard
  dsimp only
  rw [if_pos hL]
  set gp := max (0.6 * atr) (0.8 * max (1/1000000000) |entry - sl|) with hgp
  have hgp0 : (0 : ℚ) ≤ gp := by
    rw [hgp]
    refine le_trans ?_ (le_max_right _ _)
    have h1 : (1/1000000000 : ℚ) ≤ max (1/1000000000) |entry - sl| := le_max_left _ _
    linarith
  by_cases hA : entry + 1/100000000 < g2
  · have hfil : (g2 :: t2r).filter (fun x => decide (entry + 1/100000000 < x)) =
        g2 :: t2r.filter (fun x => decide (entry + 1/100000000 < x)) := by
      rw [List.filter_cons_of_pos]
      exact decide_eq_true hA
    rw [hfil]
    have hsub : ∀ y ∈ g2 :: t2r.filter (fun x => decide (entry + 1/100000000 < x)),
        y ∈ g2 :: t2r := by
      intro y hy
      rw [← hfil] at hy
      exact List.mem_of_mem_filter hy
    have hkp : List.Pairwise (· < ·)
        (g2 :: t2r.filter (fun x => decide (entry + 1/100000000 < x))) := by
      rw [← hfil]
      exact List.Pairwise.sublist (List.filter_sublist _) hp
    have hk4 : ∀ y ∈ g2 :: t2r.filter (fun x => decide (entry + 1/100000000 < x)),
        round4 y = y := fun y hy => h4 y (hsub y hy)
    have hkmin : ∀ y ∈ g2 :: t2r.filter (fun x => decide (entry + 1/100000000 < x)),
        g2 ≤ y := fun y hy => hmin y (hsub y hy)
    have hklen : (g2 :: t2r.filter (fun x => decide (entry + 1/100000000 < x))).length ≤ 3 := by
      rw [← hfil]
      exact le_trans (List.length_filter_le _ _) hl
    rw [_order_tps_long_id _ hkp hk4 hklen]
    obtain ⟨ph, pmin, p4⟩ := tp_pad_long_head_bound entry gp hgp0 3
      (g2 :: t2r.filter (fun x => decide (entry + 1/100000000 < x))) g2 rfl hkmin hk4
    cases hpad : tp_pad_long entry gp 3
        (g2 :: t2r.filter (fun x => decide (entry + 1/100000000 < x))) with
    | nil =>
      rw [hpad] at ph
      simp at ph
    | cons a rest =>
      rw [hpad] at ph pmin p4
      simp only [List.head?_cons, Option.some.injEq] at ph
      subst ph
      rw [show List.take 3 (a :: rest) = a :: List.take 2 rest from rfl]
      obtain ⟨g3, t3, hout, ⟨x, hx, hg3⟩, hmin3⟩ :=
        _order_tps_long_head (a :: List.take 2 rest) (by simp)
      have hxin : x ∈ a :: rest := by
        rcases List.mem_cons.1 hx with rfl | hx2
        · exact List.mem_cons_self _ _
        · exact List.mem_cons_of_mem _ (List.take_subset _ _ hx2)
      have e1 : g3 ≤ a := by
        have := hmin3 a (List.mem_cons_self _ _)
        rwa [h4 a (List.mem_cons_self _ _)] at this
      have e2 : a ≤ g3 := by
        rw [hg3, p4 x hxin]
        exact pmin x hxin
      have e3 : g3 = a := le_antisymm e1 e2
      refine ⟨g3, t3, hout, ?_⟩
      rw [e3]
      linarith [abs_nonneg (a - entry)]
  · push_neg at hA
    have habs : |g2 - entry| ≤ 1/20000 := by
      rw [abs_le]
      constructor
      · linarith
      · linarith
    set kept2 := _order_tps "LONG"
      ((g2 :: t2r).filter (fun x => decide (entry + 1/100000000 < x))) with hkept2
    have hlen3 : 3 ≤ (tp_pad_long entry gp 3 kept2).length := by
      have := tp_pad_long_length_ge entry gp 3 kept2
      omega
    have hlent : ((tp_pad_long entry gp 3 kept2).take 3).length = 3 := by
      rw [List.length_take]
      omega
    have hne : (tp_pad_long entry gp 3 kept2).take 3 ≠ [] := by
      intro h
      rw [h] at hlent
      simp at hlent
    obtain ⟨g3, t3, hout, _, _⟩ := _order_tps_long_head _ hne
    refine ⟨g3, t3, hout, ?_⟩
    linarith [abs_nonneg (g3 - entry)]

/-- SHORT mirror of `guard_first_long`. -/
theorem guard_first_short (entry sl atr : ℚ) (g2 : ℚ) (t2r : List ℚ)
    (hp : List.Pairwise (· > ·) (g2 :: t2r))
    (h4 : ∀ y ∈ g2 :: t2r, round4 y = y)
    (hl : (g2 :: t2r).length ≤ 3)
    (hmax : ∀ y ∈ g2 :: t2r, y ≤ g2)
    (hhigh0 : g2 ≤ entry + 1/20000) :
    ∃ g3 t3, _tp_guard "SHORT" entry sl (g2 :: t2r) atr = g3 :: t3 ∧
      |g2 - entry| - 1/20000 ≤ |g3 - entry| := by
  have hS : ¬(pyUpper "SHORT" = "LONG") := by decide
  unfold _tp_guard
  dsimp only
  rw [if_neg hS]
  set gp := max (0.6 * atr) (0.8 * max (1/1000000000) |entry - sl|) with hgp
  have hgp0 : (0 : ℚ) ≤ gp := by
    rw [hgp]
    refine le_trans ?_ (le_max_right _ _)
    have h1 : (1/1000000000 : ℚ) ≤ max (1/1000000000) |entry - sl| := le_max_left _ _
    linarith
  by_cases hA : g2 < entry - 1/100000000
  · have hfil : (g2 :: t2r).filter (fun x => decide (x < entry - 1/100000000)) =
        g2 :: t2r.filter (fun x => decide (x < entry - 1/100000000)) := by
      rw [List.filter_cons_of_pos]
      exact decide_eq_true hA
    rw [hfil]
    have hsub : ∀ y ∈ g2 :: t2r.filter (fun x => decide (x < entry - 1/100000000)),
        y ∈ g2 :: t2r := by
      intro y hy
      rw [← hfil] at hy
      exact List.mem_of_mem_filter hy
    have hkp : List.Pairwise (· > ·)
        (g2 :: t2r.filter (fun x => decide (x < entry - 1/100000000))) := by
      rw [← hfil]
      exact List.Pairwise.sublist (List.filter_sublist _) hp
    have hk4 : ∀ y ∈ g2 :: t2r.filter (fun x => decide (x < entry - 1/100000000)),
        round4 y = y := fun y hy => h4 y (hsub y hy)
    have hkmax : ∀ y ∈ g2 :: t2r.filter (fun x => decide (x < entry - 1/100000000)),
        y ≤ g2 := fun y hy => hmax y (hsub y hy)
    have hklen : (g2 :: t2r.filter (fun x => decide (x < entry - 1/100000000))).length ≤ 3 := by
      rw [← hfil]
      exact le_trans (List.length_filter_le _ _) hl
    rw [_order_tps_short_id _ hkp hk4 hklen]
    obtain ⟨ph, pmax, p4⟩ := tp_pad_short_head_bound entry gp hgp0 3
      (g2 :: t2r.filter (fun x => decide (x < entry - 1/100000000))) g2 rfl hkmax hk4
    cases hpad : tp_pad_short entry gp 3
        (g2 :: t2r.filter (fun x => decide (x < entry - 1/100000000))) with
    | nil =>
      rw [hpad] at ph
      simp at ph
    | cons a rest =>
      rw [hpad] at ph pmax p4
      simp only [List.head?_cons, Option.some.injEq] at ph
      subst ph
      rw [show List.take 3 (a :: rest) = a :: List.take 2 rest from rfl]
      obtain ⟨g3, t3, hout, ⟨x, hx, hg3⟩, hmax3⟩ :=
        _order_tps_short_head (a :: List.take 2 rest) (by simp)
      have hxin : x ∈ a :: rest := by
        rcases List.mem_cons.1 hx with rfl | hx2
        · exact List.mem_cons_self _ _
        · exact List.mem_cons_of_mem _ (List.take_subset _ _ hx2)
      have e1 : a ≤ g3 := by
        have := hmax3 a (List.mem_cons_self _ _)
        rwa [h4 a (List.mem_cons_self _ _)] at this
      have e2 : g3 ≤ a := by
        rw [hg3, p4 x hxin]
        exact pmax x hxin
      have e3 : g3 = a := le_antisymm e2 e1
      refine ⟨g3, t3, hout, ?_⟩
      rw [e3]
      linarith [abs_nonneg (a - entry)]
  · push_neg at hA
    have habs : |g2 - entry| ≤ 1/20000 := by
      rw [abs_le]
      constructor
      · linarith
      · linarith
    set kept2 := _order_tps "SHORT"
      ((g2 :: t2r).filter (fun x => decide (x < entry - 1/100000000))) with hkept2
    have hlen3 : 3 ≤ (tp_pad_short entry gp 3 kept2).length := by
      have := tp_pad_short_length_ge entry gp 3 kept2
      omega
    have hlent : ((tp_pad_short entry gp 3 kept2).take 3).length = 3 := by
      rw [List.length_take]
      omega
    have hne : (tp_pad_short entry gp 3 kept2).take 3 ≠ [] := by
      intro h
      rw [h] at hlent
      simp at hlent
    obtain ⟨g3, t3, hout, _, _⟩ := _order_tps_short_head _ hne
    refine ⟨g3, t3, hout, ?_⟩
    linarith [abs_nonneg (g3 - entry)]

/-- Every `_tp_guard` LONG output is already 4dp, so the final
`round(tp, 4)` map in `compute_tps` is the identity on it. -/
theorem map_round4_tp_guard_long (entry sl atr : ℚ) (tps : List ℚ) :
    (_tp_guard "LONG" entry sl tps atr).map round4 =
      _tp_guard "LONG" entry sl tps atr := by
  apply map_round4_id
  intro y hy
  unfold _tp_guard at hy
  dsimp only at hy
  rw [if_pos (show pyUpper "LONG" = "LONG" from by decide)] at hy
  rcases _order_tps_long_mem _ _ hy with ⟨x, _, rfl⟩
  exact round4_idem x

/-- SHORT mirror of `map_round4_tp_guard_long`. -/
theorem map_round4_tp_guard_short (entry sl atr : ℚ) (tps : List ℚ) :
    (_tp_guard "SHORT" entry sl tps atr).map round4 =
      _tp_guard "SHORT" entry sl tps atr := by
  apply map_round4_id
  intro y hy
  unfold _tp_guard at hy
  dsimp only at hy
  rw [if_neg (show ¬(pyUpper "SHORT" = "LONG") from by decide)] at hy
  rcases _order_tps_short_mem _ _ hy with ⟨x, _, rfl⟩
  exact round4_idem x

/-- `compute_tps` (LONG, R-mode): the returned ladder is nonempty and its
first element sits at least `min(MIN_R_MULT·|price-sl|, TP1_ABS)` from the
price, up to one 4dp grid step plus the guard's 1e-12 comparison epsilon. -/
theorem compute_tps_first_long (cfg : Config) (price sl atr adx : ℚ)
    (hmode : ¬(pyLower (pyStrip cfg.TP_MODE) = "atr"))
    (hne : cfg.TS_TP_R ≠ [])
    (hpos : ∀ mm ∈ cfg.TS_TP_R, 0 ≤ mm)
    (hMR : 0 ≤ cfg.MIN_R_MULT) (hT1 : 0 ≤ cfg.TP1_ABS) :
    ∃ g3 t3, compute_tps cfg price sl "LONG" atr adx = g3 :: t3 ∧
      min (cfg.MIN_R_MULT * |price - sl|) cfg.TP1_ABS
        - (1/10000 + 1/1000000000000) ≤ |g3 - price| := by
  have hL : pyUpper "LONG" = "LONG" := by decide
  unfold compute_tps
  dsimp only
  simp only [hL]
  rw [if_neg hmode]
  simp only [eq_self_iff_true, if_true]
  have htake_ne : cfg.TS_TP_R.take 3 ≠ [] := by
    intro h
    rcases List.take_eq_nil_iff.1 h with h3 | h3
    · exact absurd h3 (by norm_num)
    · exact hne h3
  have hraw_ne : (cfg.TS_TP_R.take 3).map
      (fun m => price + m * max (1/1000000000) |price - sl|) ≠ [] := by
    intro h
    exact htake_ne (List.map_eq_nil_iff.1 h)
  have hraw_ge : ∀ x ∈ (cfg.TS_TP_R.take 3).map
      (fun m => price + m * max (1/1000000000) |price - sl|), price ≤ x := by
    intro x hx
    rcases List.mem_map.1 hx with ⟨mm, hmm, rfl⟩
    have hm0 : 0 ≤ mm := hpos mm (List.take_subset _ _ hmm)
    have hR0 : (0:ℚ) ≤ max (1/1000000000) |price - sl| :=
      le_trans (by norm_num) (le_max_left _ _)
    nlinarith
  obtain ⟨h0, tr, ht1, ⟨x0, hx0, hh0⟩, hhmin⟩ := _order_tps_long_head _ hraw_ne
  have ht1p : List.Pairwise (· < ·) (h0 :: tr) := by
    rw [← ht1]
    exact _order_tps_long_pairwise _
  have ht14 : ∀ y ∈ h0 :: tr, round4 y = y := by
    rw [← ht1]
    intro y hy
    rcases _order_tps_long_mem _ _ hy with ⟨x, _, rfl⟩
    exact round4_idem x
  have ht1l : (h0 :: tr).length ≤ 3 := by
    rw [← ht1]
    exact _order_tps_long_len _
  have ht1low : ∀ y ∈ h0 :: tr, price - 1/20000 ≤ y := by
    rw [← ht1]
    intro y hy
    rcases _order_tps_long_mem _ _ hy with ⟨x, hx, rfl⟩
    have h1 := hraw_ge x hx
    linarith [le_round4 x]
  rw [ht1]
  obtain ⟨g2, t2, henf, hpp2, h442, hll2, hmin2, hlow2, hbnd2⟩ :=
    enforce_first_long cfg price sl atr h0 tr ht1p ht14 ht1l ht1low hMR hT1
  rw [henf, map_round4_tp_guard_long]
  obtain ⟨g3, t3, hgrd, hbnd3⟩ := guard_first_long price sl atr g2 t2
    hpp2 h442 hll2 hmin2 (hlow2 g2 (List.mem_cons_self _ _))
  refine ⟨g3, t3, hgrd, ?_⟩
  have hmono : min (cfg.MIN_R_MULT * |price - sl|) cfg.TP1_ABS ≤
      min (cfg.MIN_R_MULT * max (1/1000000000) |price - sl|) cfg.TP1_ABS :=
    min_le_min (mul_le_mul_of_nonneg_left (le_max_right _ _) hMR) (le_refl _)
  linarith

/-- SHORT mirror of `compute_tps_first_long`. -/
theorem compute_tps_first_short (cfg : Config) (price sl atr adx : ℚ)
    (hmode : ¬(pyLower (pyStrip cfg.TP_MODE) = "atr"))
    (hne : cfg.TS_TP_R ≠ [])
    (hpos : ∀ mm ∈ cfg.TS_TP_R, 0 ≤ mm)
    (hMR : 0 ≤ cfg.MIN_R_MULT) (hT1 : 0 ≤ cfg.TP1_ABS) :
    ∃ g3 t3, compute_tps cfg price sl "SHORT" atr adx = g3 :: t3 ∧
      min (cfg.MIN_R_MULT * |price - sl|) cfg.TP1_ABS
        - (1/10000 + 1/1000000000000) ≤ |g3 - price| := by
  have hS : pyUpper "SHORT" = "SHORT" := by decide
  unfold compute_tps
  dsimp only
  simp only [hS]
  rw [if_neg hmode]
  simp only [show (("SHORT" : String) = "LONG") = False from by simp, if_false]
  have htake_ne : cfg.TS_TP_R.take 3 ≠ [] := by
    intro h
    rcases List.take_eq_nil_iff.1 h with h3 | h3
    · exact absurd h3 (by norm_num)
    · exact hne h3
  have hraw_ne : (cfg.TS_TP_R.take 3).map
      (fun m => price - m * max (1/1000000000) |price - sl|) ≠ [] := by
    intro h
    exact htake_ne (List.map_eq_nil_iff.1 h)
  have hraw_le : ∀ x ∈ (cfg.TS_TP_R.take 3).map
      (fun m => price - m * max (1/1000000000) |price - sl|), x ≤ price := by
    intro x hx
    rcases List.mem_map.1 hx with ⟨mm, hmm, rfl⟩
    have hm0 : 0 ≤ mm := hpos mm (List.take_subset _ _ hmm)
    have hR0 : (0:ℚ) ≤ max (1/1000000000) |price - sl| :=
      le_trans (by norm_num) (le_max_left _ _)
    nlinarith
  obtain ⟨h0, tr, ht1, ⟨x0, hx0, hh0⟩, hhmax⟩ := _order_tps_short_head _ hraw_ne
  have ht1p : List.Pairwise (· > ·) (h0 :: tr) := by
    rw [← ht1]
    exact _order_tps_short_pairwise _
  have ht14 : ∀ y ∈ h0 :: tr, round4 y = y := by
    rw [← ht1]
    intro y hy
    rcases _order_tps_short_mem _ _ hy with ⟨x, _, rfl⟩
    exact round4_idem x
  have ht1l : (h0 :: tr).length ≤ 3 := by
    rw [← ht1]
    exact _order_tps_short_len _
  have ht1high : ∀ y ∈ h0 :: tr, y ≤ price + 1/20000 := by
    rw [← ht1]
    intro y hy
    rcases _order_tps_short_mem _ _ hy with ⟨x, hx, rfl⟩
    have h1 := hraw_le x hx
    linarith [round4_le x]
  rw [ht1]
  obtain ⟨g2, t2, henf, hpp2, h442, hll2, hmax2, hhigh2, hbnd2⟩ :=
    enforce_first_short cfg price sl atr h0 tr ht1p ht14 ht1l ht1high hMR hT1
  rw [henf, map_round4_tp_guard_short]
  obtain ⟨g3, t3, hgrd, hbnd3⟩ := guard_first_short price sl atr g2 t2
    hpp2 h442 hll2 hmax2 (hhigh2 g2 (List.mem_cons_self _ _))
  refine ⟨g3, t3, hgrd, ?_⟩
  have hmono : min (cfg.MIN_R_MULT * |price - sl|) cfg.TP1_ABS ≤
      min (cfg.MIN_R_MULT * max (1/1000000000) |price - sl|) cfg.TP1_ABS :=
    min_le_min (mul_le_mul_of_nonneg_left (le_max_right _ _) hMR) (le_refl _)
  linarith

/-- **C5** (corrected): in the R-based TP mode with nonnegative R-multiples,
the first take-profit of `compute_tps` sits at least
`min(MIN_R_MULT·|price−sl|, TP1_ABS)` from the price, up to one 4dp grid step
(1/10000) plus the guard's 1e-12 comparison epsilon — not the claimed
`MIN_R_MULT·|price−sl|`: the enforcement threshold is capped by `TP1_ABS`,
and a first target already beyond that capped threshold is kept as-is (see
the counterexample, where TP1 sits 0.8 from entry against
`MIN_R_MULT·R = 1.4`). -/
theorem C5_tp1_min_r (cfg : Config) (price sl atr adx : ℚ)
    (hmode : ¬(pyLower (pyStrip cfg.TP_MODE) = "atr"))
    (hne : cfg.TS_TP_R ≠ [])
    (hpos : ∀ mm ∈ cfg.TS_TP_R, 0 ≤ mm)
    (hMR : 0 ≤ cfg.MIN_R_MULT) (hT1 : 0 ≤ cfg.TP1_ABS) :
    (∃ g3 t3, compute_tps cfg price sl "LONG" atr adx = g3 :: t3 ∧
      min (cfg.MIN_R_MULT * |price - sl|) cfg.TP1_ABS
        - (1/10000 + 1/1000000000000) ≤ |g3 - price|) ∧
    (∃ g3 t3, compute_tps cfg price sl "SHORT" atr adx = g3 :: t3 ∧
      min (cfg.MIN_R_MULT * |price - sl|) cfg.TP1_ABS
        - (1/10000 + 1/1000000000000) ≤ |g3 - price|) :=
  ⟨compute_tps_first_long cfg price sl atr adx hmode hne hpos hMR hT1,
   compute_tps_first_short cfg price sl atr adx hmode hne hpos hMR hT1⟩

theorem C5_tp1_min_r_witness :
    (∃ g3 t3, compute_tps defaultCfg 100 99 "LONG" 0 0 = g3 :: t3 ∧
      min (defaultCfg.MIN_R_MULT * |(100 : ℚ) - 99|) defaultCfg.TP1_ABS
        - (1/10000 + 1/1000000000000) ≤ |g3 - 100|) ∧
    (∃ g3 t3, compute_tps defaultCfg 100 99 "SHORT" 0 0 = g3 :: t3 ∧
      min (defaultCfg.MIN_R_MULT * |(100 : ℚ) - 99|) defaultCfg.TP1_ABS
        - (1/10000 + 1/1000000000000) ≤ |g3 - 100|) :=
  C5_tp1_min_r defaultCfg 100 99 0 0 (by decide)
    (by simp [defaultCfg])
    (by
      intro mm hmm
      have h : mm ∈ ([0.8, 1.4, 2.2] : List ℚ) := hmm
      simp only [List.mem_cons, List.not_mem_nil, or_false] at h
      rcases h with rfl | rfl | rfl <;> norm_num)
    (by norm_num [defaultCfg])
    (by norm_num [defaultCfg])

/-- C5 counterexample: with the default config (TS_TP_R = [0.8, 1.4, 2.2],
MIN_R_MULT = 1.4, TP1_ABS = 0.5), price 100 and sl 99 give the ladder
[100.8, 101.4, 102.2]; the first TP sits 0.8 < 1.4 = MIN_R_MULT·|price−sl|
from entry — it survives because the enforcement threshold is
min(1.4·R, TP1_ABS) = 0.5, already cleared. -/
theorem C5_counterexample :
    compute_tps defaultCfg 100 99 "LONG" 0 0 = [100.8, 101.4, 102.2] ∧
    |(100.8 : ℚ) - 100| < defaultCfg.MIN_R_MULT * |(100 : ℚ) - 99| := by
  constructor
  · have hL : pyUpper "LONG" = "LONG" := by decide
    have hmode : pyLower (pyStrip "r") = "r" := by decide
    have hra : ¬(("r" : String) = "atr") := by decide
    norm_num [compute_tps, hra, _order_tps, _enforce_min_r, stretch_tps_long,
      _tp_guard, tp_pad_long, pad_base, pad_step_long, dedup_asc, round4, rhe,
      hL, hmode, defaultCfg, List.insertionSort, List.orderedInsert, List.take,
      List.filter, List.cons_ne_nil, abs_of_nonneg]
  · norm_num [defaultCfg, abs_of_nonneg]

end TaserBot
